import Mathlib

/-!
Verification of the admin aggregation/reporting layer of the
`empire-sports-admin` repository (`src/lib/adminService.ts` and
`src/lib/productAdminService.ts`).

The TypeScript code is shallowly embedded: JavaScript numbers are modelled
as `ℚ` (all arithmetic in the claims is exact decimal arithmetic),
timestamps (`Date` / Firestore `Timestamp`) as `ℤ` milliseconds since the
Unix epoch, and strings as Lean `String`s compared by code point
(`localeCompare` on the ASCII date keys used here agrees with code-point
order).  Asynchronous operations are modelled as explicit pipelines over an
environment record describing what the identity provider and the document
store would return; the list of collection reads an operation performs is
returned alongside its result.
-/

namespace EmpireSports

/-! ## JavaScript numeric primitives -/

/-- JavaScript `Math.round`: round half toward positive infinity. -/
def jsRound (x : ℚ) : ℤ := ⌊x + 1/2⌋

/-- `Math.round(x * 10) / 10` — round to one decimal place. -/
def round1 (x : ℚ) : ℚ := (jsRound (x * 10) : ℚ) / 10

/-- `Math.round(x * 100) / 100` — round to two decimal places. -/
def round2 (x : ℚ) : ℚ := (jsRound (x * 100) : ℚ) / 100

theorem jsRound_eq_of_bounds (x : ℚ) (n : ℤ) (h1 : (n : ℚ) ≤ x + 1/2)
    (h2 : x + 1/2 < (n : ℚ) + 1) : jsRound x = n := by
  unfold jsRound
  exact Int.floor_eq_iff.mpr ⟨h1, h2⟩

theorem jsRound_intCast (n : ℤ) : jsRound (n : ℚ) = n := by
  apply jsRound_eq_of_bounds <;> norm_num

/-- `Math.round` differs from its argument by at most 1/2. -/
theorem abs_jsRound_sub_le (x : ℚ) : |(jsRound x : ℚ) - x| ≤ 1/2 := by
  unfold jsRound
  rw [abs_le]
  constructor
  · have h := Int.lt_floor_add_one (x + 1/2)
    push_cast at h ⊢
    linarith
  · have h := Int.floor_le (x + 1/2)
    push_cast at h ⊢
    linarith

/-! ## JavaScript string primitives

Strings are compared by code point.  `String.prototype.includes`,
`String.prototype.toLowerCase` (on the ASCII range relevant to the keyword
classifier) and `padStart(2, "0")` are modelled on the underlying character
lists so that everything evaluates inside the kernel. -/

/-- Code-point lexicographic strict order on character lists. -/
def charListLt : List Char → List Char → Bool
  | [], [] => false
  | [], _ :: _ => true
  | _ :: _, [] => false
  | a :: as, b :: bs =>
    if a.toNat < b.toNat then true
    else if b.toNat < a.toNat then false
    else charListLt as bs

/-- `a < b` on strings, as used by `localeCompare` on ASCII date keys. -/
def strLtb (a b : String) : Bool := charListLt a.data b.data

/-- Does `hay` start with `needle`? -/
def leadsWith : List Char → List Char → Bool
  | _, [] => true
  | [], _ :: _ => false
  | a :: as, b :: bs => a == b && leadsWith as bs

/-- Does `hay` contain `needle` as a contiguous substring? -/
def hasSubstr : List Char → List Char → Bool
  | [], needle => needle.isEmpty
  | a :: t, needle => leadsWith (a :: t) needle || hasSubstr t needle

/-- JavaScript `s.includes(sub)`. -/
def jsIncludes (s sub : String) : Bool := hasSubstr s.data sub.data

/-- ASCII lower-casing of one character (`String.prototype.toLowerCase`
restricted to the ASCII range, which covers every keyword the classifier
tests). -/
def lowerChar (c : Char) : Char :=
  if 65 ≤ c.toNat ∧ c.toNat ≤ 90 then Char.ofNat (c.toNat + 32) else c

/-- JavaScript `s.toLowerCase()` on ASCII strings. -/
def jsToLower (s : String) : String := ⟨s.data.map lowerChar⟩

/-! ## Keyword fallback classifier (`AdminService.categorizeByName`,
`src/lib/productAdminService.ts`) -/

/-- Embedding of `categorizeByName`: lower-case the name and test the fixed
keyword rules in source order; the first match wins. -/
def categorizeByName (productName : String) : String :=
  let itemName := jsToLower productName
  if jsIncludes itemName "basketball" || jsIncludes itemName "ball" then
    "Basketball"
  else if jsIncludes itemName "running" || jsIncludes itemName "run" then
    "Running"
  else if jsIncludes itemName "shirt" || jsIncludes itemName "clothing" ||
      jsIncludes itemName "shorts" || jsIncludes itemName "apparel" then
    "Clothing"
  else if jsIncludes itemName "sneaker" || jsIncludes itemName "shoe" ||
      jsIncludes itemName "nike" || jsIncludes itemName "adidas" then
    "Sneakers"
  else
    "Other"

/-- The classifier's rule table as the specification states it: an ordered
list of keyword groups with their categories. -/
def keywordRules : List (List String × String) :=
  [(["basketball", "ball"], "Basketball"),
   (["running", "run"], "Running"),
   (["shirt", "clothing", "shorts", "apparel"], "Clothing"),
   (["sneaker", "shoe", "nike", "adidas"], "Sneakers")]

/-- Specification-side classifier: the category of the first rule whose
keyword group has a member occurring in the lower-cased name, `"Other"`
when no rule matches. -/
def categorizeByNameSpec (productName : String) : String :=
  let itemName := jsToLower productName
  match keywordRules.find? (fun r => r.1.any (fun k => jsIncludes itemName k)) with
  | some r => r.2
  | none => "Other"

/-- **C8** — For every input string the keyword fallback classifier
lower-cases it and returns the category of the first matching rule in the
fixed order basketball/ball → Basketball, running/run → Running,
shirt/clothing/shorts/apparel → Clothing, sneaker/shoe/nike/adidas →
Sneakers, and `"Other"` when no rule matches; in particular
`"Nike Air Max"` classifies as Sneakers. -/
theorem categorizeByName_correct :
    (∀ s : String, categorizeByName s = categorizeByNameSpec s) ∧
    categorizeByName "Nike Air Max" = "Sneakers" := by
  constructor
  · intro s
    simp only [categorizeByName, categorizeByNameSpec, keywordRules, List.find?,
      List.any_cons, List.any_nil, Bool.or_false]
    cases h1 : (jsIncludes (jsToLower s) "basketball" || jsIncludes (jsToLower s) "ball") <;>
      cases h2 : (jsIncludes (jsToLower s) "running" || jsIncludes (jsToLower s) "run") <;>
        cases h3 : (jsIncludes (jsToLower s) "shirt" || (jsIncludes (jsToLower s) "clothing" ||
            (jsIncludes (jsToLower s) "shorts" || jsIncludes (jsToLower s) "apparel"))) <;>
          cases h4 : (jsIncludes (jsToLower s) "sneaker" || (jsIncludes (jsToLower s) "shoe" ||
              (jsIncludes (jsToLower s) "nike" || jsIncludes (jsToLower s) "adidas"))) <;>
            (simp_all; try (intros; simp_all))
  · decide

/-! ## Data model

`Order` is declared in `src/lib/orderService.ts`, which is not part of the
sources here; the fields below are the ones the aggregation code reads
(`paymentStatus`, `totalAmount`, `createdAt.toDate()`, `items` with
`id`/`name`/`size`/`quantity`/`price`), matching the spec's §3 data model.
`totalAmount` is optional because the code guards it with `|| 0`. -/

structure OrderItem where
  id : String
  name : String
  size : String
  quantity : Nat
  price : ℚ
deriving DecidableEq

structure Order where
  id : String
  paymentStatus : String
  totalAmount : Option ℚ
  createdAt : ℤ
  items : List OrderItem
deriving DecidableEq

/-- The two product fields the aggregation layer reads.  The empty string
models a missing/falsy `name` or `category`. -/
structure Product where
  name : String
  category : String
deriving DecidableEq

/-- `order.totalAmount || 0`. -/
def orderAmount (o : Order) : ℚ := o.totalAmount.getD 0

/-- Payment-status filter used by every aggregation (`"success"`, exact,
case-sensitive). -/
def isSuccess (o : Order) : Prop := o.paymentStatus = "success"

instance (o : Order) : Decidable (isSuccess o) := by
  unfold isSuccess
  infer_instance

/-! ## JavaScript plain-object accumulator

All four aggregations build a `{ [key: string]: … }` object by iterating
and either creating a fresh entry or updating the existing one, then read
the entries out with `Object.entries`.  For the non-integer-like string
keys used here, JavaScript enumerates the keys in insertion order, so the
object is modelled as an association list in which updating keeps an
entry's position and a new key is appended at the end. -/

/-- Update the entry at `k` in place with `f`, or append `(k, f d)` when
the key is absent. -/
def bump {β : Type} : List (String × β) → String → β → (β → β) → List (String × β)
  | [], k, d, f => [(k, f d)]
  | (k', v) :: rest, k, d, f =>
    if k' = k then (k', f v) :: rest else (k', v) :: bump rest k d f

/-- Lookup in the association list. -/
def mget {β : Type} : List (String × β) → String → Option β
  | [], _ => none
  | (k', v) :: rest, k => if k' = k then some v else mget rest k

/-- The keys, in enumeration order. -/
def mkeys {β : Type} (m : List (String × β)) : List String :=
  m.map Prod.fst

theorem mget_bump_self {β : Type} (m : List (String × β)) (k : String)
    (d : β) (f : β → β) :
    mget (bump m k d f) k = some (f ((mget m k).getD d)) := by
  induction m with
  | nil => simp [bump, mget]
  | cons e rest ih =>
    obtain ⟨k', v⟩ := e
    by_cases h : k' = k <;> simp [bump, mget, h, ih]

theorem mget_bump_ne {β : Type} (m : List (String × β)) {k k' : String}
    (d : β) (f : β → β) (h : k' ≠ k) :
    mget (bump m k d f) k' = mget m k' := by
  induction m with
  | nil => simp [bump, mget, h, Ne.symm h]
  | cons e rest ih =>
    obtain ⟨k'', v⟩ := e
    by_cases h2 : k'' = k <;> by_cases h3 : k'' = k' <;>
      simp_all [bump, mget]

theorem mget_eq_none_iff {β : Type} (m : List (String × β)) (k : String) :
    mget m k = none ↔ k ∉ mkeys m := by
  induction m with
  | nil => simp [mget, mkeys]
  | cons e rest ih =>
    obtain ⟨k', v⟩ := e
    by_cases h : k' = k <;> simp_all [mget, mkeys, eq_comm]

theorem mkeys_bump {β : Type} (m : List (String × β)) (k : String)
    (d : β) (f : β → β) :
    mkeys (bump m k d f) = if k ∈ mkeys m then mkeys m else mkeys m ++ [k] := by
  induction m with
  | nil => simp [bump, mkeys]
  | cons e rest ih =>
    obtain ⟨k', v⟩ := e
    by_cases h : k' = k
    · subst h
      simp [bump, mkeys]
    · by_cases h2 : k ∈ mkeys rest <;>
        simp_all [bump, mkeys, Ne.symm h]

theorem nodup_mkeys_bump {β : Type} (m : List (String × β)) (k : String)
    (d : β) (f : β → β) (h : (mkeys m).Nodup) :
    (mkeys (bump m k d f)).Nodup := by
  rw [mkeys_bump]
  by_cases h2 : k ∈ mkeys m
  · simpa [h2]
  · rw [if_neg h2, List.nodup_append]
    refine ⟨h, List.nodup_singleton k, ?_⟩
    intro a ha hb
    simp only [List.mem_singleton] at hb
    subst hb
    exact h2 ha

theorem mget_eq_some_of_mem {β : Type} {m : List (String × β)} {k : String}
    {v : β} (hn : (mkeys m).Nodup) (h : (k, v) ∈ m) :
    mget m k = some v := by
  induction m with
  | nil => simp at h
  | cons e rest ih =>
    obtain ⟨k', v'⟩ := e
    simp only [mkeys, List.map_cons, List.nodup_cons] at hn
    rcases List.mem_cons.mp h with h1 | h1
    · obtain ⟨rfl, rfl⟩ := Prod.mk.injEq .. ▸ h1
      simp [mget]
    · have hk : k' ≠ k := by
        rintro rfl
        exact hn.1 (List.mem_map.mpr ⟨(k', v), h1, rfl⟩)
      simpa [mget, hk] using ih hn.2 h1

/-- One pass of the accumulate-into-object loop: each element `x` bumps the
entry at `keyOf x` with `upd x`, creating it from `dOf x` when absent. -/
def accFold {ι β : Type} (keyOf : ι → String) (dOf : ι → β)
    (upd : ι → β → β) (xs : List ι) (m : List (String × β)) :
    List (String × β) :=
  xs.foldl (fun m x => bump m (keyOf x) (dOf x) (upd x)) m

theorem accFold_nil {ι β : Type} (keyOf : ι → String) (dOf : ι → β)
    (upd : ι → β → β) (m : List (String × β)) :
    accFold keyOf dOf upd [] m = m := rfl

theorem accFold_cons {ι β : Type} (keyOf : ι → String) (dOf : ι → β)
    (upd : ι → β → β) (x : ι) (xs : List ι) (m : List (String × β)) :
    accFold keyOf dOf upd (x :: xs) m =
      accFold keyOf dOf upd xs (bump m (keyOf x) (dOf x) (upd x)) := rfl

theorem nodup_mkeys_accFold {ι β : Type} (keyOf : ι → String) (dOf : ι → β)
    (upd : ι → β → β) (xs : List ι) (m : List (String × β))
    (h : (mkeys m).Nodup) : (mkeys (accFold keyOf dOf upd xs m)).Nodup := by
  induction xs generalizing m with
  | nil => simpa [accFold]
  | cons x t ih =>
    rw [accFold_cons]
    exact ih _ (nodup_mkeys_bump _ _ _ _ h)

/-- The final value stored at `k` is obtained by threading the updates of
exactly the elements whose key is `k`, in input order, through the starting
value (or the element's default when no value exists yet). -/
theorem mget_accFold {ι β : Type} (keyOf : ι → String) (dOf : ι → β)
    (upd : ι → β → β) (xs : List ι) (m : List (String × β)) (k : String) :
    mget (accFold keyOf dOf upd xs m) k =
      (xs.filter (fun x => keyOf x = k)).foldl
        (fun o x => some (upd x (o.getD (dOf x)))) (mget m k) := by
  induction xs generalizing m with
  | nil => simp [accFold]
  | cons x t ih =>
    rw [accFold_cons, ih]
    by_cases h : keyOf x = k
    · subst h
      simp [List.filter_cons, mget_bump_self]
    · simp [List.filter_cons, h, mget_bump_ne _ _ _ (Ne.symm h)]

theorem sum_bump {β M : Type} [AddCommMonoid M] (g : β → M)
    (m : List (String × β)) (k : String) (d : β) (f : β → β) (c : M)
    (hf : ∀ v, g (f v) = g v + c) (hd : g d = 0) :
    ((bump m k d f).map (fun e => g e.2)).sum =
      (m.map (fun e => g e.2)).sum + c := by
  induction m with
  | nil => simp [bump, hf, hd]
  | cons e rest ih =>
    obtain ⟨k', v⟩ := e
    by_cases h : k' = k
    · simp only [bump, if_pos h, List.map_cons, List.sum_cons, hf]
      abel
    · simp only [bump, if_neg h, List.map_cons, List.sum_cons, ih]
      abel

/-- Folding the whole input adds each element's contribution (measured by
`g`) exactly once, whatever the key distribution. -/
theorem sum_accFold {ι β M : Type} [AddCommMonoid M] (g : β → M)
    (keyOf : ι → String) (dOf : ι → β) (upd : ι → β → β) (δ : ι → M)
    (hupd : ∀ x v, g (upd x v) = g v + δ x) (hd : ∀ x, g (dOf x) = 0)
    (xs : List ι) (m : List (String × β)) :
    ((accFold keyOf dOf upd xs m).map (fun e => g e.2)).sum =
      (m.map (fun e => g e.2)).sum + (xs.map δ).sum := by
  induction xs generalizing m with
  | nil => simp [accFold]
  | cons x t ih =>
    rw [accFold_cons, ih]
    rw [sum_bump g m (keyOf x) (dOf x) (upd x) (δ x) (hupd x) (hd x),
      List.map_cons, List.sum_cons]
    abel

/-! ## Dashboard statistics (`AdminService.getDashboardStats`,
`src/lib/adminService.ts` lines 59–161; the copy in
`src/lib/productAdminService.ts` lines 670–757 is identical) -/

/-- The month boundaries the code derives from wall-clock `now`:
`new Date(y, m, 1)`, `new Date(y, m-1, 1)` and `new Date(y, m, 0)`,
as epoch milliseconds. -/
structure MonthBounds where
  startOfCurrentMonth : ℤ
  startOfLastMonth : ℤ
  endOfLastMonth : ℤ
deriving DecidableEq

/-- Running totals of the order scan. -/
structure StatsAcc where
  totalRevenue : ℚ
  currentMonthRevenue : ℚ
  lastMonthRevenue : ℚ
  currentMonthOrders : Nat
  lastMonthOrders : Nat
deriving DecidableEq

/-- One iteration of the `ordersSnapshot.forEach` body: successful orders
contribute to the lifetime total, and to the current-month bucket when
`orderDate >= startOfCurrentMonth`, else to the previous-month bucket when
`startOfLastMonth <= orderDate <= endOfLastMonth`. -/
def statsStep (b : MonthBounds) (acc : StatsAcc) (o : Order) : StatsAcc :=
  if isSuccess o then
    let amt := orderAmount o
    if b.startOfCurrentMonth ≤ o.createdAt then
      { totalRevenue := acc.totalRevenue + amt
        currentMonthRevenue := acc.currentMonthRevenue + amt
        lastMonthRevenue := acc.lastMonthRevenue
        currentMonthOrders := acc.currentMonthOrders + 1
        lastMonthOrders := acc.lastMonthOrders }
    else if b.startOfLastMonth ≤ o.createdAt ∧ o.createdAt ≤ b.endOfLastMonth then
      { totalRevenue := acc.totalRevenue + amt
        currentMonthRevenue := acc.currentMonthRevenue
        lastMonthRevenue := acc.lastMonthRevenue + amt
        currentMonthOrders := acc.currentMonthOrders
        lastMonthOrders := acc.lastMonthOrders + 1 }
    else
      { acc with totalRevenue := acc.totalRevenue + amt }
  else acc

/-- The whole order scan, starting from all-zero accumulators. -/
def statsScan (b : MonthBounds) (orders : List Order) : StatsAcc :=
  orders.foldl (statsStep b) ⟨0, 0, 0, 0, 0⟩

/-- The growth formula of the code before rounding:
`prev > 0 ? (cur - prev) / prev * 100 : cur > 0 ? 100 : 0`. -/
def growthPercent (current previous : ℚ) : ℚ :=
  if previous > 0 then (current - previous) / previous * 100
  else if current > 0 then 100 else 0

/-- The record `getDashboardStats` returns. -/
structure AdminStats where
  totalRevenue : ℚ
  totalOrders : Nat
  totalProducts : Nat
  totalUsers : Nat
  revenueGrowth : ℚ
  ordersGrowth : ℚ
deriving DecidableEq

/-- The pure computation of `getDashboardStats` once the three collection
snapshots are available: `totalOrders`/`totalProducts`/`totalUsers` are the
snapshot sizes, the revenue fields come from the order scan, and both
growth figures are rounded to one decimal place. -/
def getDashboardStatsCore (b : MonthBounds) (orders : List Order)
    (numProducts numUsers : Nat) : AdminStats :=
  let acc := statsScan b orders
  { totalRevenue := acc.totalRevenue
    totalOrders := orders.length
    totalProducts := numProducts
    totalUsers := numUsers
    revenueGrowth := round1 (growthPercent acc.currentMonthRevenue acc.lastMonthRevenue)
    ordersGrowth := round1 (growthPercent (acc.currentMonthOrders : ℚ) (acc.lastMonthOrders : ℚ)) }

/-- Membership in the code's current-month bucket. -/
def countsCurrent (b : MonthBounds) (o : Order) : Prop :=
  isSuccess o ∧ b.startOfCurrentMonth ≤ o.createdAt

/-- Membership in the code's previous-month bucket. -/
def countsLast (b : MonthBounds) (o : Order) : Prop :=
  isSuccess o ∧ ¬b.startOfCurrentMonth ≤ o.createdAt ∧
    b.startOfLastMonth ≤ o.createdAt ∧ o.createdAt ≤ b.endOfLastMonth

instance (b : MonthBounds) (o : Order) : Decidable (countsCurrent b o) := by
  unfold countsCurrent
  infer_instance

instance (b : MonthBounds) (o : Order) : Decidable (countsLast b o) := by
  unfold countsLast
  infer_instance

theorem statsStep_totalRevenue (b : MonthBounds) (a : StatsAcc) (o : Order) :
    (statsStep b a o).totalRevenue =
      if isSuccess o then a.totalRevenue + orderAmount o else a.totalRevenue := by
  by_cases hs : isSuccess o
  · by_cases hc : b.startOfCurrentMonth ≤ o.createdAt
    · simp [statsStep, hs, hc]
    · by_cases hl : b.startOfLastMonth ≤ o.createdAt ∧ o.createdAt ≤ b.endOfLastMonth <;>
        simp [statsStep, hs, hc, hl]
  · simp [statsStep, hs]

theorem statsStep_currentMonthRevenue (b : MonthBounds) (a : StatsAcc) (o : Order) :
    (statsStep b a o).currentMonthRevenue =
      if countsCurrent b o then a.currentMonthRevenue + orderAmount o
      else a.currentMonthRevenue := by
  by_cases hs : isSuccess o
  · by_cases hc : b.startOfCurrentMonth ≤ o.createdAt
    · simp [statsStep, countsCurrent, hs, hc]
    · by_cases hl : b.startOfLastMonth ≤ o.createdAt ∧ o.createdAt ≤ b.endOfLastMonth <;>
        simp [statsStep, countsCurrent, hs, hc, hl]
  · simp [statsStep, countsCurrent, hs]

theorem statsStep_lastMonthRevenue (b : MonthBounds) (a : StatsAcc) (o : Order) :
    (statsStep b a o).lastMonthRevenue =
      if countsLast b o then a.lastMonthRevenue + orderAmount o
      else a.lastMonthRevenue := by
  by_cases hs : isSuccess o
  · by_cases hc : b.startOfCurrentMonth ≤ o.createdAt
    · simp [statsStep, countsLast, hs, hc]
    · by_cases hl : b.startOfLastMonth ≤ o.createdAt ∧ o.createdAt ≤ b.endOfLastMonth <;>
        simp [statsStep, countsLast, hs, hc, hl]
  · simp [statsStep, countsLast, hs]

theorem statsStep_currentMonthOrders (b : MonthBounds) (a : StatsAcc) (o : Order) :
    (statsStep b a o).currentMonthOrders =
      if countsCurrent b o then a.currentMonthOrders + 1
      else a.currentMonthOrders := by
  by_cases hs : isSuccess o
  · by_cases hc : b.startOfCurrentMonth ≤ o.createdAt
    · simp [statsStep, countsCurrent, hs, hc]
    · by_cases hl : b.startOfLastMonth ≤ o.createdAt ∧ o.createdAt ≤ b.endOfLastMonth <;>
        simp [statsStep, countsCurrent, hs, hc, hl]
  · simp [statsStep, countsCurrent, hs]

theorem statsStep_lastMonthOrders (b : MonthBounds) (a : StatsAcc) (o : Order) :
    (statsStep b a o).lastMonthOrders =
      if countsLast b o then a.lastMonthOrders + 1 else a.lastMonthOrders := by
  by_cases hs : isSuccess o
  · by_cases hc : b.startOfCurrentMonth ≤ o.createdAt
    · simp [statsStep, countsLast, hs, hc]
    · by_cases hl : b.startOfLastMonth ≤ o.createdAt ∧ o.createdAt ≤ b.endOfLastMonth <;>
        simp [statsStep, countsLast, hs, hc, hl]
  · simp [statsStep, countsLast, hs]

theorem foldl_statsStep_totalRevenue (b : MonthBounds) (l : List Order) :
    ∀ a : StatsAcc, (l.foldl (statsStep b) a).totalRevenue =
      a.totalRevenue + ((l.filter (fun o => isSuccess o)).map orderAmount).sum := by
  induction l with
  | nil => simp
  | cons o t ih =>
    intro a
    rw [List.foldl_cons, ih, statsStep_totalRevenue, List.filter_cons]
    by_cases hs : isSuccess o
    · simp [hs]
      ring
    · simp [hs]

theorem foldl_statsStep_currentMonthRevenue (b : MonthBounds) (l : List Order) :
    ∀ a : StatsAcc, (l.foldl (statsStep b) a).currentMonthRevenue =
      a.currentMonthRevenue +
        ((l.filter (fun o => countsCurrent b o)).map orderAmount).sum := by
  induction l with
  | nil => simp
  | cons o t ih =>
    intro a
    rw [List.foldl_cons, ih, statsStep_currentMonthRevenue, List.filter_cons]
    by_cases hc : countsCurrent b o
    · simp [hc]
      ring
    · simp [hc]

theorem foldl_statsStep_lastMonthRevenue (b : MonthBounds) (l : List Order) :
    ∀ a : StatsAcc, (l.foldl (statsStep b) a).lastMonthRevenue =
      a.lastMonthRevenue +
        ((l.filter (fun o => countsLast b o)).map orderAmount).sum := by
  induction l with
  | nil => simp
  | cons o t ih =>
    intro a
    rw [List.foldl_cons, ih, statsStep_lastMonthRevenue, List.filter_cons]
    by_cases hc : countsLast b o
    · simp [hc]
      ring
    · simp [hc]

theorem foldl_statsStep_currentMonthOrders (b : MonthBounds) (l : List Order) :
    ∀ a : StatsAcc, (l.foldl (statsStep b) a).currentMonthOrders =
      a.currentMonthOrders + (l.filter (fun o => countsCurrent b o)).length := by
  induction l with
  | nil => simp
  | cons o t ih =>
    intro a
    rw [List.foldl_cons, ih, statsStep_currentMonthOrders, List.filter_cons]
    by_cases hc : countsCurrent b o
    · simp [hc]
      omega
    · simp [hc]

theorem foldl_statsStep_lastMonthOrders (b : MonthBounds) (l : List Order) :
    ∀ a : StatsAcc, (l.foldl (statsStep b) a).lastMonthOrders =
      a.lastMonthOrders + (l.filter (fun o => countsLast b o)).length := by
  induction l with
  | nil => simp
  | cons o t ih =>
    intro a
    rw [List.foldl_cons, ih, statsStep_lastMonthOrders, List.filter_cons]
    by_cases hc : countsLast b o
    · simp [hc]
      omega
    · simp [hc]

theorem statsScan_totalRevenue (b : MonthBounds) (orders : List Order) :
    (statsScan b orders).totalRevenue =
      ((orders.filter (fun o => isSuccess o)).map orderAmount).sum := by
  simpa [statsScan] using foldl_statsStep_totalRevenue b orders ⟨0, 0, 0, 0, 0⟩

theorem statsScan_currentMonthRevenue (b : MonthBounds) (orders : List Order) :
    (statsScan b orders).currentMonthRevenue =
      ((orders.filter (fun o => countsCurrent b o)).map orderAmount).sum := by
  simpa [statsScan] using foldl_statsStep_currentMonthRevenue b orders ⟨0, 0, 0, 0, 0⟩

theorem statsScan_lastMonthRevenue (b : MonthBounds) (orders : List Order) :
    (statsScan b orders).lastMonthRevenue =
      ((orders.filter (fun o => countsLast b o)).map orderAmount).sum := by
  simpa [statsScan] using foldl_statsStep_lastMonthRevenue b orders ⟨0, 0, 0, 0, 0⟩

theorem statsScan_currentMonthOrders (b : MonthBounds) (orders : List Order) :
    (statsScan b orders).currentMonthOrders =
      (orders.filter (fun o => countsCurrent b o)).length := by
  simpa [statsScan] using foldl_statsStep_currentMonthOrders b orders ⟨0, 0, 0, 0, 0⟩

theorem statsScan_lastMonthOrders (b : MonthBounds) (orders : List Order) :
    (statsScan b orders).lastMonthOrders =
      (orders.filter (fun o => countsLast b o)).length := by
  simpa [statsScan] using foldl_statsStep_lastMonthOrders b orders ⟨0, 0, 0, 0, 0⟩

theorem round1_intCast (n : ℤ) : round1 (n : ℚ) = n := by
  unfold round1
  rw [show ((n : ℚ) * 10) = ((n * 10 : ℤ) : ℚ) by push_cast; ring, jsRound_intCast]
  push_cast
  ring

/-! ### The spec's dashboard scenario: three orders in a June 2025 dashboard
(UTC wall clock), success/$100/June 10, success/$50/May 15,
pending/$999/June 12. -/

/-- Month boundaries a June 2025 `now` produces (epoch ms, UTC):
June 1, May 1, May 31. -/
def juneBounds : MonthBounds :=
  { startOfCurrentMonth := 1748736000000
    startOfLastMonth := 1746057600000
    endOfLastMonth := 1748649600000 }

def juneSuccessOrder : Order :=
  { id := "o1", paymentStatus := "success", totalAmount := some 100,
    createdAt := 1749513600000, items := [] }

def maySuccessOrder : Order :=
  { id := "o2", paymentStatus := "success", totalAmount := some 50,
    createdAt := 1747267200000, items := [] }

def junePendingOrder : Order :=
  { id := "o3", paymentStatus := "pending", totalAmount := some 999,
    createdAt := 1749686400000, items := [] }

def scenarioOrders : List Order :=
  [juneSuccessOrder, maySuccessOrder, junePendingOrder]

/-- **C1** — `totalRevenue` is the sum of `totalAmount` over exactly the
orders with payment status `"success"`, invariant under permutation of the
order snapshot, while `totalOrders` counts all orders; on the spec's
three-order scenario the result is totalRevenue = 150, totalOrders = 3,
current-month revenue 100, previous-month revenue 50 and
revenueGrowth = 100.0. -/
theorem dashboardStats_totalRevenue_correct :
    (∀ (b : MonthBounds) (orders orders2 : List Order) (np nu : Nat),
      (getDashboardStatsCore b orders np nu).totalRevenue =
        ((orders.filter (fun o => isSuccess o)).map orderAmount).sum ∧
      (orders.Perm orders2 →
        (getDashboardStatsCore b orders np nu).totalRevenue =
          (getDashboardStatsCore b orders2 np nu).totalRevenue) ∧
      (getDashboardStatsCore b orders np nu).totalOrders = orders.length) ∧
    (getDashboardStatsCore juneBounds scenarioOrders 0 0).totalRevenue = 150 ∧
    (getDashboardStatsCore juneBounds scenarioOrders 0 0).totalOrders = 3 ∧
    (statsScan juneBounds scenarioOrders).currentMonthRevenue = 100 ∧
    (statsScan juneBounds scenarioOrders).lastMonthRevenue = 50 ∧
    (getDashboardStatsCore juneBounds scenarioOrders 0 0).revenueGrowth = 100 := by
  have hcore : ∀ (b : MonthBounds) (orders : List Order) (np nu : Nat),
      (getDashboardStatsCore b orders np nu).totalRevenue =
        ((orders.filter (fun o => isSuccess o)).map orderAmount).sum := by
    intro b orders np nu
    simpa [getDashboardStatsCore] using statsScan_totalRevenue b orders
  refine ⟨fun b orders orders2 np nu => ⟨hcore b orders np nu, fun hp => ?_, rfl⟩,
    ?_, rfl, ?_, ?_, ?_⟩
  · rw [hcore b orders np nu, hcore b orders2 np nu]
    exact ((hp.filter _).map orderAmount).sum_eq
  · rw [hcore]
    simp +decide [scenarioOrders, juneSuccessOrder, maySuccessOrder,
      junePendingOrder, isSuccess, orderAmount, List.filter_cons,
      List.filter_nil]
    try norm_num
  · rw [statsScan_currentMonthRevenue]
    simp +decide [scenarioOrders, juneSuccessOrder, maySuccessOrder,
      junePendingOrder, countsCurrent, isSuccess, juneBounds, orderAmount,
      List.filter_cons, List.filter_nil]
    try norm_num
  · rw [statsScan_lastMonthRevenue]
    simp +decide [scenarioOrders, juneSuccessOrder, maySuccessOrder,
      junePendingOrder, countsLast, isSuccess, juneBounds, orderAmount,
      List.filter_cons, List.filter_nil]
    try norm_num
  · have h1 : (statsScan juneBounds scenarioOrders).currentMonthRevenue = 100 := by
      rw [statsScan_currentMonthRevenue]
      simp +decide [scenarioOrders, juneSuccessOrder, maySuccessOrder,
        junePendingOrder, countsCurrent, isSuccess, juneBounds, orderAmount,
        List.filter_cons, List.filter_nil]
      try norm_num
    have h2 : (statsScan juneBounds scenarioOrders).lastMonthRevenue = 50 := by
      rw [statsScan_lastMonthRevenue]
      simp +decide [scenarioOrders, juneSuccessOrder, maySuccessOrder,
        junePendingOrder, countsLast, isSuccess, juneBounds, orderAmount,
        List.filter_cons, List.filter_nil]
      try norm_num
    show round1 (growthPercent _ _) = 100
    rw [h1, h2]
    have : growthPercent 100 50 = 100 := by
      norm_num [growthPercent]
    rw [this]
    simpa using round1_intCast 100

/-- **C2** — Both growth figures are `round1 (growthPercent cur prev)`, and
`growthPercent` is `(cur − prev)/prev × 100` when `prev > 0`, rounds to 100
when `prev = 0 < cur`, and to 0 when both are 0. -/
theorem growth_rounding_correct :
    (∀ (b : MonthBounds) (orders : List Order) (np nu : Nat),
      (getDashboardStatsCore b orders np nu).revenueGrowth =
        round1 (growthPercent (statsScan b orders).currentMonthRevenue
          (statsScan b orders).lastMonthRevenue) ∧
      (getDashboardStatsCore b orders np nu).ordersGrowth =
        round1 (growthPercent ((statsScan b orders).currentMonthOrders : ℚ)
          ((statsScan b orders).lastMonthOrders : ℚ))) ∧
    (∀ current previous : ℚ,
      (previous > 0 →
        round1 (growthPercent current previous) =
          round1 ((current - previous) / previous * 100)) ∧
      (previous = 0 → current > 0 → round1 (growthPercent current previous) = 100) ∧
      (previous = 0 → current = 0 → round1 (growthPercent current previous) = 0)) := by
  refine ⟨fun b orders np nu => ⟨rfl, rfl⟩, fun current previous => ⟨?_, ?_, ?_⟩⟩
  · intro h
    rw [growthPercent, if_pos h]
  · intro h hc
    rw [growthPercent, if_neg (by rw [h]; exact lt_irrefl 0), if_pos hc]
    simpa using round1_intCast 100
  · intro h hc
    rw [growthPercent, if_neg (by rw [h]; exact lt_irrefl 0),
      if_neg (by rw [hc]; exact lt_irrefl 0)]
    simpa using round1_intCast 0

theorem growth_rounding_correct_witness :
    (0 : ℚ) < 50 ∧
    round1 (growthPercent 100 50) = round1 ((100 - 50) / 50 * 100) ∧
    (0 : ℚ) < 7 ∧ round1 (growthPercent 7 0) = 100 ∧
    round1 (growthPercent 0 0) = 0 := by
  refine ⟨by norm_num, (growth_rounding_correct.2 100 50).1 (by norm_num),
    by norm_num, (growth_rounding_correct.2 7 0).2.1 rfl (by norm_num),
    (growth_rounding_correct.2 0 0).2.2 rfl rfl⟩

/-! ### C3: orders outside both month buckets -/

/-- First instant of July 2025 (epoch ms, UTC): every timestamp at or above
this lies after the end of the current (June 2025) month. -/
def endOfCurrentMonthJune2025 : ℤ := 1751328000000

/-- A successful order created July 15 2025 — after the end of the current
(June) month and outside the previous (May) month. -/
def julyFutureOrder : Order :=
  { id := "f", paymentStatus := "success", totalAmount := some 999,
    createdAt := 1752537600000, items := [] }

/-- **C3 counterexample** — a successful order whose timestamp lies after the
end of the current month (hence outside both the claim's current-month and
previous-month windows) is nevertheless added to the current-month growth
bucket by the code, because the code's test is only
`orderDate >= startOfCurrentMonth`: the claim as stated is false. -/
theorem outside_windows_counterexample :
    isSuccess julyFutureOrder ∧
    endOfCurrentMonthJune2025 ≤ julyFutureOrder.createdAt ∧
    juneBounds.endOfLastMonth < julyFutureOrder.createdAt ∧
    (statsScan juneBounds [julyFutureOrder]).totalRevenue = 999 ∧
    (statsScan juneBounds [julyFutureOrder]).currentMonthRevenue = 999 ∧
    (statsScan juneBounds [julyFutureOrder]).currentMonthOrders = 1 := by
  refine ⟨by norm_num [isSuccess, julyFutureOrder], by norm_num [julyFutureOrder,
    endOfCurrentMonthJune2025], by norm_num [julyFutureOrder, juneBounds], ?_, ?_, ?_⟩
  · rw [statsScan_totalRevenue]
    simp +decide [julyFutureOrder, isSuccess, orderAmount, List.filter_cons,
      List.filter_nil]
    try norm_num
  · rw [statsScan_currentMonthRevenue]
    simp +decide [julyFutureOrder, countsCurrent, isSuccess, juneBounds,
      orderAmount, List.filter_cons, List.filter_nil]
    try norm_num
  · rw [statsScan_currentMonthOrders]
    simp +decide [julyFutureOrder, countsCurrent, isSuccess, juneBounds,
      List.filter_cons, List.filter_nil]
    try norm_num

/-- **C3 (amended)** — the code's current-month bucket has no upper bound:
a successful order counts as "current month" whenever its timestamp is at or
after the start of the current month (even if it lies after the month's
end), and as "previous month" when it is earlier but falls inside
`[startOfLastMonth, endOfLastMonth]`.  A successful order matching neither
test — one strictly before the previous month's start, or in the gap
between `endOfLastMonth` (midnight starting the previous month's last day)
and the current month's start — contributes to the lifetime `totalRevenue`
but to neither growth bucket. -/
theorem outside_both_code_windows_only_total (b : MonthBounds) (o : Order)
    (orders : List Order) (hs : isSuccess o) (hc : ¬countsCurrent b o)
    (hl : ¬countsLast b o) :
    (statsScan b (o :: orders)).totalRevenue =
        orderAmount o + (statsScan b orders).totalRevenue ∧
    (statsScan b (o :: orders)).currentMonthRevenue =
        (statsScan b orders).currentMonthRevenue ∧
    (statsScan b (o :: orders)).lastMonthRevenue =
        (statsScan b orders).lastMonthRevenue ∧
    (statsScan b (o :: orders)).currentMonthOrders =
        (statsScan b orders).currentMonthOrders ∧
    (statsScan b (o :: orders)).lastMonthOrders =
        (statsScan b orders).lastMonthOrders := by
  refine ⟨?_, ?_, ?_, ?_, ?_⟩
  · rw [statsScan_totalRevenue, statsScan_totalRevenue, List.filter_cons]
    simp [hs]
  · rw [statsScan_currentMonthRevenue, statsScan_currentMonthRevenue,
      List.filter_cons]
    simp [hc]
  · rw [statsScan_lastMonthRevenue, statsScan_lastMonthRevenue,
      List.filter_cons]
    simp [hl]
  · rw [statsScan_currentMonthOrders, statsScan_currentMonthOrders,
      List.filter_cons]
    simp [hc]
  · rw [statsScan_lastMonthOrders, statsScan_lastMonthOrders,
      List.filter_cons]
    simp [hl]

/-- A successful order at May 31 2025, 12:00 UTC: strictly after
`endOfLastMonth` (May 31, midnight) and strictly before the current month's
start, so it falls in the gap between the code's two buckets. -/
def gapOrder : Order :=
  { id := "g", paymentStatus := "success", totalAmount := some 77,
    createdAt := 1748692800000, items := [] }

theorem outside_both_code_windows_only_total_witness :
    isSuccess gapOrder ∧ ¬countsCurrent juneBounds gapOrder ∧
    ¬countsLast juneBounds gapOrder ∧
    (statsScan juneBounds [gapOrder]).totalRevenue =
        orderAmount gapOrder + (statsScan juneBounds []).totalRevenue ∧
    (statsScan juneBounds [gapOrder]).currentMonthRevenue =
        (statsScan juneBounds []).currentMonthRevenue := by
  have hs : isSuccess gapOrder := by norm_num [isSuccess, gapOrder]
  have hc : ¬countsCurrent juneBounds gapOrder := by
    norm_num [countsCurrent, gapOrder, juneBounds]
  have hl : ¬countsLast juneBounds gapOrder := by
    norm_num [countsLast, isSuccess, gapOrder, juneBounds]
  have h := outside_both_code_windows_only_total juneBounds gapOrder [] hs hc hl
  exact ⟨hs, hc, hl, h.1, h.2.1⟩

/-! ## Code-point string order: the properties needed to reason about the
`sort((a, b) => a.date.localeCompare(b.date))` calls. -/

theorem char_toNat_inj {x y : Char} (h : x.toNat = y.toNat) : x = y := by
  have hx := Char.ofNat_toNat x
  have hy := Char.ofNat_toNat y
  rw [← hx, ← hy, h]

theorem charListLt_asymm : ∀ {a b : List Char},
    charListLt a b = true → charListLt b a = false := by
  intro a
  induction a with
  | nil =>
    intro b h
    cases b with
    | nil => simp [charListLt] at h
    | cons y ys => simp [charListLt]
  | cons x xs ih =>
    intro b h
    cases b with
    | nil => simp [charListLt] at h
    | cons y ys =>
      simp only [charListLt] at h ⊢
      by_cases h1 : x.toNat < y.toNat
      · have h2 : ¬y.toNat < x.toNat := by omega
        simp [h1, h2]
      · by_cases h2 : y.toNat < x.toNat
        · simp [h1, h2] at h
        · simp only [h1, h2, if_false] at h ⊢
          exact ih h

theorem charListLt_trans : ∀ {a b c : List Char},
    charListLt a b = true → charListLt b c = true → charListLt a c = true := by
  intro a
  induction a with
  | nil =>
    intro b c hab hbc
    cases b with
    | nil => simp [charListLt] at hab
    | cons y ys =>
      cases c with
      | nil => simp [charListLt] at hbc
      | cons z zs => simp [charListLt]
  | cons x xs ih =>
    intro b c hab hbc
    cases b with
    | nil => simp [charListLt] at hab
    | cons y ys =>
      cases c with
      | nil => simp [charListLt] at hbc
      | cons z zs =>
        simp only [charListLt] at hab hbc ⊢
        by_cases h1 : x.toNat < y.toNat <;> by_cases h2 : y.toNat < z.toNat
        · have : x.toNat < z.toNat := by omega
          simp [this]
        · by_cases h3 : z.toNat < y.toNat
          · simp [h1, h2, h3] at hbc
          · have hyz : y.toNat = z.toNat := by omega
            have : x.toNat < z.toNat := by omega
            simp [this]
        · by_cases h3 : y.toNat < x.toNat
          · simp [h1, h3] at hab
          · have hxy : x.toNat = y.toNat := by omega
            have : x.toNat < z.toNat := by omega
            simp [this]
        · by_cases h3 : y.toNat < x.toNat
          · simp [h1, h3] at hab
          · by_cases h4 : z.toNat < y.toNat
            · simp [h2, h4] at hbc
            · have hxy : x.toNat = y.toNat := by omega
              have hyz : y.toNat = z.toNat := by omega
              have h5 : ¬x.toNat < z.toNat := by omega
              have h6 : ¬z.toNat < x.toNat := by omega
              simp only [h1, h3, if_false] at hab
              simp only [h2, h4, if_false] at hbc
              simp only [h5, h6, if_false]
              exact ih hab hbc

theorem charListLt_conn : ∀ {a b : List Char},
    charListLt a b = false → charListLt b a = false → a = b := by
  intro a
  induction a with
  | nil =>
    intro b hab _
    cases b with
    | nil => rfl
    | cons y ys => simp [charListLt] at hab
  | cons x xs ih =>
    intro b hab hba
    cases b with
    | nil => simp [charListLt] at hba
    | cons y ys =>
      simp only [charListLt] at hab hba
      by_cases h1 : x.toNat < y.toNat
      · simp [h1] at hab
      · by_cases h2 : y.toNat < x.toNat
        · simp [h1, h2] at hba
        · have hxy : x = y := char_toNat_inj (by omega)
          simp only [h1, h2, if_false] at hab hba
          rw [hxy, ih hab hba]

theorem strLtb_asymm {a b : String} (h : strLtb a b = true) :
    strLtb b a = false :=
  charListLt_asymm h

theorem strLtb_trans {a b c : String} (hab : strLtb a b = true)
    (hbc : strLtb b c = true) : strLtb a c = true :=
  charListLt_trans hab hbc

theorem strLtb_conn {a b : String} (hab : strLtb a b = false)
    (hba : strLtb b a = false) : a = b :=
  String.ext (charListLt_conn hab hba)

/-! ## Calendar computations (JavaScript `Date`)

`toISOString` renders the UTC calendar date; `getFullYear`/`getMonth`
render the browser's local calendar date.  A timestamp is epoch
milliseconds; a local clock is described by its fixed offset from UTC in
milliseconds (positive east of Greenwich).  `civilFromDays` is the standard
proleptic-Gregorian conversion from days-since-epoch used by every `Date`
implementation. -/

/-- Days-since-epoch → (year, month, day) in the proleptic Gregorian
calendar. -/
def civilFromDays (z : ℤ) : ℤ × ℤ × ℤ :=
  let z' := z + 719468
  let era := Int.fdiv z' 146097
  let doe := z' - era * 146097
  let yoe := (doe - doe / 1460 + doe / 36524 - doe / 146096) / 365
  let y := yoe + era * 400
  let doy := doe - (365 * yoe + yoe / 4 - yoe / 100)
  let mp := (5 * doy + 2) / 153
  let d := doy - (153 * mp + 2) / 5 + 1
  let m := if mp < 10 then mp + 3 else mp - 9
  (if m ≤ 2 then y + 1 else y, m, d)

def msPerDay : ℤ := 86400000

/-- The calendar day a timestamp falls on (floor division, as `Date`
does for times before 1970 too). -/
def epochDay (t : ℤ) : ℤ := Int.fdiv t msPerDay

/-- `String(n).padStart(2, "0")` for the small non-negative numbers that
month/day components are. -/
def pad2 (n : ℤ) : String :=
  if n < 10 then "0" ++ toString n.toNat else toString n.toNat

/-- The `"YYYY-MM-DD"` day bucket key:
`orderDate.toISOString().split("T")[0]` — the UTC calendar date. -/
def dayKey (t : ℤ) : String :=
  let c := civilFromDays (epochDay t)
  toString c.1.toNat ++ "-" ++ pad2 c.2.1 ++ "-" ++ pad2 c.2.2

/-- The `"YYYY-MM"` month bucket key:
`` `${orderDate.getFullYear()}-${String(orderDate.getMonth() + 1).padStart(2, "0")}` `` —
the local calendar year and month under offset `tzOffsetMs`. -/
def monthKey (tzOffsetMs t : ℤ) : String :=
  let c := civilFromDays (epochDay (t + tzOffsetMs))
  toString c.1.toNat ++ "-" ++ pad2 c.2.1

theorem civilFromDays_epoch : civilFromDays 0 = (1970, 1, 1) := by decide

theorem dayKey_sanity : dayKey 1751241600000 = "2025-06-30" := by decide

/-! ## Time-bucketed chart series (`AdminService.getChartData`,
`src/lib/adminService.ts` lines 268–329; identical copy in
`src/lib/productAdminService.ts` lines 966–1024) -/

inductive ChartPeriod
  | day
  | month
deriving DecidableEq

/-- One chart bucket: accumulated revenue and order count. -/
structure BucketAcc where
  revenue : ℚ
  orders : Nat
deriving DecidableEq

/-- The bucket key of an order timestamp for the given granularity:
UTC day for `"day"`, local year-month for `"month"`. -/
def chartKey (period : ChartPeriod) (tzOffsetMs t : ℤ) : String :=
  match period with
  | .day => dayKey t
  | .month => monthKey tzOffsetMs t

/-- One iteration of the chart `ordersSnapshot.forEach` body. -/
def chartStep (period : ChartPeriod) (tzOffsetMs : ℤ)
    (m : List (String × BucketAcc)) (o : Order) : List (String × BucketAcc) :=
  if isSuccess o then
    bump m (chartKey period tzOffsetMs o.createdAt) ⟨0, 0⟩
      (fun acc => ⟨acc.revenue + orderAmount o, acc.orders + 1⟩)
  else m

/-- The `chartData` object after the scan. -/
def chartMap (period : ChartPeriod) (tzOffsetMs : ℤ) (orders : List Order) :
    List (String × BucketAcc) :=
  orders.foldl (chartStep period tzOffsetMs) []

structure ChartDataPoint where
  date : String
  revenue : ℚ
  orders : Nat
deriving DecidableEq

/-- Ascending key order used by
`.sort((a, b) => a.date.localeCompare(b.date))`. -/
def dateLe (a b : ChartDataPoint) : Prop := strLtb b.date a.date = false

instance : DecidableRel dateLe := by
  unfold dateLe
  infer_instance

instance : IsTotal ChartDataPoint dateLe :=
  ⟨fun a b => by
    unfold dateLe
    by_cases h : strLtb b.date a.date = false
    · exact Or.inl h
    · exact Or.inr (strLtb_asymm (by revert h; cases strLtb b.date a.date <;> simp))⟩

instance : IsTrans ChartDataPoint dateLe :=
  ⟨fun a b c hab hbc => by
    unfold dateLe at hab hbc ⊢
    by_cases hca : strLtb c.date a.date = false
    · exact hca
    · exfalso
      have hca' : strLtb c.date a.date = true := by
        revert hca
        cases strLtb c.date a.date <;> simp
      by_cases hbc2 : strLtb b.date c.date = true
      · have h := strLtb_trans hbc2 hca'
        simp [hab] at h
      · have hbc2' : strLtb b.date c.date = false := by
          revert hbc2
          cases strLtb b.date c.date <;> simp
        have hbceq : b.date = c.date := strLtb_conn hbc2' hbc
        rw [← hbceq] at hca'
        simp [hab] at hca'⟩

/-- `Object.entries(chartData)` mapped to points (revenue rounded to two
decimals) and sorted ascending by key. -/
def chartDataPoints (period : ChartPeriod) (tzOffsetMs : ℤ)
    (orders : List Order) : List ChartDataPoint :=
  ((chartMap period tzOffsetMs orders).map
    (fun e => ⟨e.1, round2 e.2.revenue, e.2.orders⟩)).insertionSort dateLe

/-- 30 day buckets / 12 month buckets. -/
def chartCap : ChartPeriod → Nat
  | .day => 30
  | .month => 12

/-- `getChartData`: the sorted points truncated to the most recent
`chartCap period` buckets (`slice(-30)` / `slice(-12)`). -/
def getChartData (period : ChartPeriod) (tzOffsetMs : ℤ)
    (orders : List Order) : List ChartDataPoint :=
  let pts := chartDataPoints period tzOffsetMs orders
  pts.drop (pts.length - chartCap period)

/-- Raw (unrounded) revenue accumulated into the bucket `key`. -/
def bucketRevenue (period : ChartPeriod) (tzOffsetMs : ℤ)
    (orders : List Order) (key : String) : ℚ :=
  (((orders.filter (fun o => isSuccess o)).filter
      (fun o => chartKey period tzOffsetMs o.createdAt = key)).map
    orderAmount).sum

theorem chartMap_eq_accFold (period : ChartPeriod) (tzOffsetMs : ℤ)
    (orders : List Order) (m : List (String × BucketAcc)) :
    orders.foldl (chartStep period tzOffsetMs) m =
      accFold (fun o => chartKey period tzOffsetMs o.createdAt)
        (fun _ => ⟨0, 0⟩)
        (fun o acc => ⟨acc.revenue + orderAmount o, acc.orders + 1⟩)
        (orders.filter (fun o => isSuccess o)) m := by
  induction orders generalizing m with
  | nil => simp [accFold]
  | cons o t ih =>
    by_cases hs : isSuccess o <;>
      simp [List.foldl_cons, List.filter_cons, hs, ih, chartStep, accFold_cons]

theorem charListLt_irrefl : ∀ l : List Char, charListLt l l = false := by
  intro l
  induction l with
  | nil => rfl
  | cons x xs ih => simp [charListLt, ih]

theorem strLtb_irrefl (s : String) : strLtb s s = false :=
  charListLt_irrefl s.data

theorem foldl_opt_bucket (l : List Order) (x0 : BucketAcc) :
    l.foldl (fun o x => some
        (⟨(o.getD ⟨0, 0⟩).revenue + orderAmount x,
          (o.getD ⟨0, 0⟩).orders + 1⟩ : BucketAcc)) (some x0) =
      some (l.foldl (fun b x =>
        (⟨b.revenue + orderAmount x, b.orders + 1⟩ : BucketAcc)) x0) := by
  induction l generalizing x0 with
  | nil => rfl
  | cons x t ih => simp [ih]

theorem foldl_bucket (l : List Order) (a : BucketAcc) :
    l.foldl (fun b o => (⟨b.revenue + orderAmount o, b.orders + 1⟩ : BucketAcc)) a =
      ⟨a.revenue + (l.map orderAmount).sum, a.orders + l.length⟩ := by
  induction l generalizing a with
  | nil => simp
  | cons o t ih =>
    rw [List.foldl_cons, ih]
    simp only [List.map_cons, List.sum_cons, List.length_cons,
      BucketAcc.mk.injEq]
    refine ⟨by ring, by omega⟩

/-- What the `chartData` object holds at `key` after the scan: nothing if
no successful order maps there, otherwise the unrounded revenue sum and the
order count of the orders that do. -/
theorem mget_chartMap (period : ChartPeriod) (tzOffsetMs : ℤ)
    (orders : List Order) (key : String) :
    mget (chartMap period tzOffsetMs orders) key =
      match (orders.filter (fun o => isSuccess o)).filter
          (fun o => chartKey period tzOffsetMs o.createdAt = key) with
      | [] => none
      | l => some ⟨(l.map orderAmount).sum, l.length⟩ := by
  rw [chartMap, chartMap_eq_accFold, mget_accFold]
  rcases hl : (orders.filter (fun o => isSuccess o)).filter
      (fun o => chartKey period tzOffsetMs o.createdAt = key) with _ | ⟨a, t⟩
  · rw [hl]
    rfl
  · rw [hl, List.foldl_cons]
    simp only [mget, Option.getD_none]
    rw [foldl_opt_bucket, foldl_bucket]
    simp only [List.map_cons, List.sum_cons, List.length_cons,
      Option.some.injEq, BucketAcc.mk.injEq]
    refine ⟨by ring, by omega⟩

theorem nodup_mkeys_chartMap (period : ChartPeriod) (tzOffsetMs : ℤ)
    (orders : List Order) : (mkeys (chartMap period tzOffsetMs orders)).Nodup := by
  rw [chartMap, chartMap_eq_accFold]
  exact nodup_mkeys_accFold _ _ _ _ [] (by simp [mkeys])

/-- **C5** — For every order set, either granularity and any local clock,
the chart series has strictly increasing (hence pairwise distinct) bucket
keys, at most 30 (day) / 12 (month) entries obtained by dropping the oldest
buckets (the result is a suffix of the full ascending series), and every
entry's revenue is the bucket's revenue sum rounded to 2 decimal places. -/
theorem getChartData_correct (period : ChartPeriod) (tzOffsetMs : ℤ)
    (orders : List Order) :
    (getChartData period tzOffsetMs orders).Pairwise
        (fun p q => strLtb p.date q.date = true) ∧
    ((getChartData period tzOffsetMs orders).map (fun p => p.date)).Nodup ∧
    (getChartData period tzOffsetMs orders).length ≤ chartCap period ∧
    getChartData period tzOffsetMs orders <:+
        chartDataPoints period tzOffsetMs orders ∧
    ∀ pt ∈ getChartData period tzOffsetMs orders,
      pt.revenue = round2 (bucketRevenue period tzOffsetMs orders pt.date) := by
  have hsorted : (chartDataPoints period tzOffsetMs orders).Pairwise dateLe :=
    List.sorted_insertionSort dateLe _
  have hperm : (chartDataPoints period tzOffsetMs orders).Perm
      ((chartMap period tzOffsetMs orders).map
        (fun e => ⟨e.1, round2 e.2.revenue, e.2.orders⟩)) :=
    List.perm_insertionSort dateLe _
  have hkeysnd : (((chartMap period tzOffsetMs orders).map
      (fun e => (⟨e.1, round2 e.2.revenue, e.2.orders⟩ : ChartDataPoint))).map
        (fun p => p.date)).Nodup := by
    rw [List.map_map]
    exact nodup_mkeys_chartMap period tzOffsetMs orders
  have hnd : ((chartDataPoints period tzOffsetMs orders).map
      (fun p => p.date)).Nodup := (hperm.map (fun p => p.date)).nodup_iff.mpr hkeysnd
  have hne : (chartDataPoints period tzOffsetMs orders).Pairwise
      (fun p q => p.date ≠ q.date) := List.pairwise_map.mp hnd
  have hstrict : (chartDataPoints period tzOffsetMs orders).Pairwise
      (fun p q => strLtb p.date q.date = true) := by
    refine (hsorted.and hne).imp ?_
    rintro a b ⟨hle, hab⟩
    by_cases hf : strLtb a.date b.date = false
    · exact absurd (strLtb_conn hf hle) hab
    · revert hf
      cases strLtb a.date b.date <;> simp
  have hdrop : getChartData period tzOffsetMs orders =
      (chartDataPoints period tzOffsetMs orders).drop
        ((chartDataPoints period tzOffsetMs orders).length - chartCap period) := rfl
  refine ⟨?_, ?_, ?_, ?_, ?_⟩
  · rw [hdrop]
    exact hstrict.sublist (List.drop_sublist _ _)
  · rw [hdrop]
    exact hnd.sublist ((List.drop_sublist _ _).map _)
  · rw [hdrop, List.length_drop]
    omega
  · rw [hdrop]
    exact List.drop_suffix _ _
  · intro pt hpt
    have hsuffix : getChartData period tzOffsetMs orders <:+
        chartDataPoints period tzOffsetMs orders := by
      rw [hdrop]
      exact List.drop_suffix _ _
    have hmem : pt ∈ chartDataPoints period tzOffsetMs orders :=
      hsuffix.subset hpt
    have hmem2 := hperm.subset hmem
    obtain ⟨e, he, heq⟩ := List.mem_map.mp hmem2
    have hdate : pt.date = e.1 := by rw [← heq]
    have hrev : pt.revenue = round2 e.2.revenue := by rw [← heq]
    have hget : mget (chartMap period tzOffsetMs orders) e.1 = some e.2 :=
      mget_eq_some_of_mem (nodup_mkeys_chartMap period tzOffsetMs orders)
        (by simpa using he)
    rw [mget_chartMap] at hget
    rcases hl : (orders.filter (fun o => isSuccess o)).filter
        (fun o => chartKey period tzOffsetMs o.createdAt = e.1) with _ | ⟨a, t⟩
    · rw [hl] at hget
      simp at hget
    · rw [hl] at hget
      simp only [Option.some.injEq] at hget
      have hrv : e.2.revenue = ((a :: t).map orderAmount).sum := by rw [← hget]
      rw [hrev, hrv]
      unfold bucketRevenue
      rw [hdate, hl]

/-- A single successful $10 order at the epoch, for exercising C5. -/
def chartWitnessOrder : Order :=
  { id := "w", paymentStatus := "success", totalAmount := some 10,
    createdAt := 0, items := [] }

theorem getChartData_correct_witness :
    (⟨"1970-01-01", round2 10, 1⟩ : ChartDataPoint) ∈
      getChartData ChartPeriod.day 0 [chartWitnessOrder] ∧
    (⟨"1970-01-01", round2 10, 1⟩ : ChartDataPoint).revenue =
      round2 (bucketRevenue ChartPeriod.day 0 [chartWitnessOrder] "1970-01-01") := by
  have hmem : (⟨"1970-01-01", round2 10, 1⟩ : ChartDataPoint) ∈
      getChartData ChartPeriod.day 0 [chartWitnessOrder] := by
    simp only [getChartData, chartDataPoints, chartMap, chartStep,
      chartWitnessOrder, chartKey, chartCap, bump, List.foldl_cons,
      List.foldl_nil, List.map_cons, List.map_nil, List.insertionSort,
      List.orderedInsert, isSuccess, orderAmount]
    simp +decide [ChartDataPoint.mk.injEq]
  refine ⟨hmem, ?_⟩
  have h := (getChartData_correct ChartPeriod.day 0 [chartWitnessOrder]).2.2.2.2
    _ hmem
  simpa using h

/-- A successful order created 2025-06-30 at 23:00 UTC: in a UTC+2 locale
its local wall-clock time is already July 1. -/
def c10Order : Order :=
  { id := "c10", paymentStatus := "success", totalAmount := some 10,
    createdAt := 1751324400000, items := [] }

/-- The `"YYYY-MM"` prefix of a `"YYYY-MM-DD"` day key. -/
def monthPart (s : String) : String := ⟨s.data.take 7⟩

/-- **C10** — `getChartData` keys day buckets by the UTC calendar date
(`toISOString`) but month buckets by the local calendar
(`getFullYear`/`getMonth`): the day key never depends on the local clock,
and for an order at 2025-06-30 23:00 UTC seen from a UTC+2 locale the day
bucket key's calendar month (2025-06) differs from the month bucket key
(2025-07). -/
theorem chartKey_clock_mismatch :
    (∀ tzOffsetMs t : ℤ, chartKey ChartPeriod.day tzOffsetMs t = dayKey t) ∧
    (∀ tzOffsetMs t : ℤ,
      chartKey ChartPeriod.month tzOffsetMs t = monthKey tzOffsetMs t) ∧
    (7200000 : ℤ) ≠ 0 ∧
    (getChartData ChartPeriod.day 7200000 [c10Order]).map (fun p => p.date) =
      ["2025-06-30"] ∧
    (getChartData ChartPeriod.month 7200000 [c10Order]).map (fun p => p.date) =
      ["2025-07"] ∧
    monthPart "2025-06-30" = "2025-06" ∧
    ("2025-06" : String) ≠ "2025-07" :=
  ⟨fun _ _ => rfl, fun _ _ => rfl, by decide, by decide, by decide, by decide,
    by decide⟩

theorem dashboardStats_totalRevenue_correct_witness :
    scenarioOrders.Perm
      [maySuccessOrder, juneSuccessOrder, junePendingOrder] ∧
    (getDashboardStatsCore juneBounds scenarioOrders 0 0).totalRevenue =
      (getDashboardStatsCore juneBounds
        [maySuccessOrder, juneSuccessOrder, junePendingOrder] 0 0).totalRevenue := by
  have hp : scenarioOrders.Perm
      [maySuccessOrder, juneSuccessOrder, junePendingOrder] :=
    List.Perm.swap maySuccessOrder juneSuccessOrder [junePendingOrder]
  exact ⟨hp, (dashboardStats_totalRevenue_correct.1 juneBounds scenarioOrders
    [maySuccessOrder, juneSuccessOrder, junePendingOrder] 0 0).2.1 hp⟩

/-! ## Top products (`AdminService.getTopProducts`,
`src/lib/adminService.ts` lines 201–263; identical copy in
`src/lib/productAdminService.ts` lines 794–853) -/

/-- One `productSales[item.id]` entry: the name recorded when the entry was
created, total units and total revenue. -/
structure SalesEntry where
  name : String
  sales : Nat
  revenue : ℚ
deriving DecidableEq

/-- `productSales[item.id].sales += item.quantity;
productSales[item.id].revenue += item.price * item.quantity`. -/
def updTop (it : OrderItem) (e : SalesEntry) : SalesEntry :=
  ⟨e.name, e.sales + it.quantity, e.revenue + it.price * it.quantity⟩

/-- One line-item iteration: create the entry on first sight (with the
item's name and zero totals) and accumulate. -/
def topStep (m : List (String × SalesEntry)) (it : OrderItem) :
    List (String × SalesEntry) :=
  bump m it.id ⟨it.name, 0, 0⟩ (updTop it)

/-- The `productSales` object after scanning every line item of the
(query-filtered) successful orders. -/
def productSalesMap (successOrders : List Order) :
    List (String × SalesEntry) :=
  successOrders.foldl (fun m o => o.items.foldl topStep m) []

structure TopProduct where
  id : String
  name : String
  sales : Nat
  revenue : ℚ
deriving DecidableEq

/-- Descending-sales order used by `.sort((a, b) => b.sales - a.sales)`
(a JavaScript stable sort keeps `a` before `b` when the comparator is
non-positive, i.e. when `b.sales ≤ a.sales`). -/
def salesGe (a b : TopProduct) : Prop := b.sales ≤ a.sales

instance : DecidableRel salesGe := by
  unfold salesGe
  infer_instance

instance : IsTotal TopProduct salesGe :=
  ⟨fun a b => by
    unfold salesGe
    exact Nat.le_total b.sales a.sales⟩

instance : IsTrans TopProduct salesGe :=
  ⟨fun a b c hab hbc => by
    unfold salesGe at hab hbc ⊢
    omega⟩

/-- `getTopProducts`: entries of the sales object, sorted descending by
units sold (stable), truncated to `limitCount`.  The source converts
`revenue` to a localized currency string (`Intl.NumberFormat`) at this
point; the numeric value passed to the formatter is kept here. -/
def getTopProducts (limitCount : Nat) (successOrders : List Order) :
    List TopProduct :=
  (((productSalesMap successOrders).map
      (fun e => ⟨e.1, e.2.name, e.2.sales, e.2.revenue⟩)).insertionSort
    salesGe).take limitCount

/-- All line items of a list of orders, in iteration order. -/
def itemsOfOrders (l : List Order) : List OrderItem :=
  (l.map (fun o => o.items)).flatten

theorem productSalesMap_eq_accFold (l : List Order)
    (m : List (String × SalesEntry)) :
    l.foldl (fun m o => o.items.foldl topStep m) m =
      accFold (fun it => it.id) (fun it => ⟨it.name, 0, 0⟩) updTop
        (itemsOfOrders l) m := by
  rw [accFold, itemsOfOrders, List.foldl_flatten, List.foldl_map]
  rfl

theorem foldl_opt_sales (l : List OrderItem) (x0 : SalesEntry) :
    l.foldl (fun o it => some (updTop it (o.getD ⟨it.name, 0, 0⟩)))
        (some x0) =
      some (l.foldl (fun e it => updTop it e) x0) := by
  induction l generalizing x0 with
  | nil => rfl
  | cons x t ih => simp [ih]

theorem foldl_sales (l : List OrderItem) (a : SalesEntry) :
    l.foldl (fun e it => updTop it e) a =
      ⟨a.name, a.sales + (l.map (fun it => it.quantity)).sum,
        a.revenue + (l.map (fun it => it.price * (it.quantity : ℚ))).sum⟩ := by
  induction l generalizing a with
  | nil => simp
  | cons it t ih =>
    rw [List.foldl_cons, ih]
    simp only [updTop, List.map_cons, List.sum_cons, SalesEntry.mk.injEq]
    refine ⟨trivial, by omega, by ring⟩

/-- What `productSales` holds at `key`: nothing when no line item has that
product id; otherwise the name of the first such item, the total quantity
and the total `price × quantity` revenue. -/
theorem mget_productSalesMap (successOrders : List Order) (key : String) :
    mget (productSalesMap successOrders) key =
      match (itemsOfOrders successOrders).filter (fun it => it.id = key) with
      | [] => none
      | a :: t => some ⟨a.name,
          ((a :: t).map (fun it => it.quantity)).sum,
          ((a :: t).map (fun it => it.price * (it.quantity : ℚ))).sum⟩ := by
  rw [productSalesMap, productSalesMap_eq_accFold, mget_accFold]
  rcases hl : (itemsOfOrders successOrders).filter (fun it => it.id = key)
    with _ | ⟨a, t⟩
  · rw [hl]
    rfl
  · rw [hl, List.foldl_cons]
    simp only [mget, Option.getD_none]
    rw [foldl_opt_sales, foldl_sales]
    simp only [List.map_cons, List.sum_cons, Option.some.injEq,
      SalesEntry.mk.injEq, updTop]
    refine ⟨trivial, by omega, by ring⟩

theorem nodup_mkeys_productSalesMap (successOrders : List Order) :
    (mkeys (productSalesMap successOrders)).Nodup := by
  rw [productSalesMap, productSalesMap_eq_accFold]
  exact nodup_mkeys_accFold _ _ _ _ [] (by simp [mkeys])

/-- **C7** — `getTopProducts` returns at most `limitCount` entries; each
entry's units-sold is the total quantity of that product id over the
successful orders' line items and its revenue is the total of line-item
`price × quantity` (historical prices); the output is sorted so that no
entry is followed by one with strictly more units sold.  Determinism over
identical input is inherent: the embedding shows the computation is a pure
function of the order snapshot. -/
theorem getTopProducts_correct (limitCount : Nat) (orders : List Order) :
    (getTopProducts limitCount
        (orders.filter (fun o => isSuccess o))).length ≤ limitCount ∧
    (getTopProducts limitCount
        (orders.filter (fun o => isSuccess o))).Pairwise salesGe ∧
    ∀ p ∈ getTopProducts limitCount (orders.filter (fun o => isSuccess o)),
      p.sales = (((itemsOfOrders (orders.filter (fun o => isSuccess o))).filter
          (fun it => it.id = p.id)).map (fun it => it.quantity)).sum ∧
      p.revenue = (((itemsOfOrders (orders.filter (fun o => isSuccess o))).filter
          (fun it => it.id = p.id)).map
            (fun it => it.price * (it.quantity : ℚ))).sum := by
  refine ⟨?_, ?_, ?_⟩
  · rw [getTopProducts, List.length_take]
    omega
  · exact (List.sorted_insertionSort salesGe _).sublist (List.take_sublist _ _)
  · intro p hp
    have hmem : p ∈ ((productSalesMap (orders.filter (fun o => isSuccess o))).map
        (fun e => (⟨e.1, e.2.name, e.2.sales, e.2.revenue⟩ : TopProduct))) :=
      (List.perm_insertionSort salesGe _).subset
        ((List.take_subset _ _) hp)
    obtain ⟨e, he, heq⟩ := List.mem_map.mp hmem
    have hid : p.id = e.1 := by rw [← heq]
    have hsales : p.sales = e.2.sales := by rw [← heq]
    have hrev : p.revenue = e.2.revenue := by rw [← heq]
    have hget : mget (productSalesMap (orders.filter (fun o => isSuccess o)))
        e.1 = some e.2 :=
      mget_eq_some_of_mem (nodup_mkeys_productSalesMap _) (by simpa using he)
    rw [mget_productSalesMap] at hget
    rcases hl : (itemsOfOrders (orders.filter (fun o => isSuccess o))).filter
        (fun it => it.id = e.1) with _ | ⟨a, t⟩
    · rw [hl] at hget
      simp at hget
    · rw [hl] at hget
      simp only [Option.some.injEq] at hget
      rw [hid, hl, hsales, hrev, ← hget]
      exact ⟨rfl, rfl⟩

/-- A successful order with two line items of the same product id, for
exercising C7. -/
def topWitnessOrder : Order :=
  { id := "t", paymentStatus := "success", totalAmount := some 15,
    createdAt := 0,
    items := [⟨"p1", "Ball", "M", 2, 5⟩, ⟨"p1", "Ball", "M", 1, 5⟩] }

theorem getTopProducts_correct_witness :
    (⟨"p1", "Ball", 3, 15⟩ : TopProduct) ∈
      getTopProducts 5 ([topWitnessOrder].filter (fun o => isSuccess o)) ∧
    (⟨"p1", "Ball", 3, 15⟩ : TopProduct).sales =
      (((itemsOfOrders ([topWitnessOrder].filter (fun o => isSuccess o))).filter
          (fun it => it.id = "p1")).map (fun it => it.quantity)).sum ∧
    (⟨"p1", "Ball", 3, 15⟩ : TopProduct).revenue =
      (((itemsOfOrders ([topWitnessOrder].filter (fun o => isSuccess o))).filter
          (fun it => it.id = "p1")).map
            (fun it => it.price * (it.quantity : ℚ))).sum := by
  have hmem : (⟨"p1", "Ball", 3, 15⟩ : TopProduct) ∈
      getTopProducts 5 ([topWitnessOrder].filter (fun o => isSuccess o)) := by
    simp only [getTopProducts, productSalesMap, topWitnessOrder, topStep,
      updTop, bump, mget, List.foldl_cons, List.foldl_nil, List.map_cons,
      List.map_nil, List.insertionSort, List.orderedInsert, List.filter_cons,
      List.filter_nil, isSuccess]
    simp +decide [TopProduct.mk.injEq]
    try norm_num
  have h := (getTopProducts_correct 5 [topWitnessOrder]).2.2 _ hmem
  exact ⟨hmem, by simpa using h.1, by simpa using h.2⟩

/-! ## Category distribution (`AdminService.getCategoryDistribution`,
`src/lib/productAdminService.ts` lines 858–931) -/

/-- The lookup from lower-cased product name to category built from the
products snapshot: a product's explicit `category` when truthy, else the
keyword fallback; products with a falsy name are skipped; a repeated name
overwrites the stored category. -/
def productCategoryMap (products : List Product) : List (String × String) :=
  products.foldl (fun m p =>
    let productName := jsToLower p.name
    let category := if p.category = "" then categorizeByName p.name else p.category
    if productName = "" then m
    else bump m productName category (fun _ => category)) []

/-- Category of one line item: the products-collection lookup by
lower-cased item name when it yields a truthy value, else the keyword
fallback. -/
def itemCategory (pcm : List (String × String)) (it : OrderItem) : String :=
  let c := (mget pcm (jsToLower it.name)).getD ""
  if c = "" then categorizeByName it.name else c

/-- The `categoryCount` object: per-category unit counts over every line
item of the successful orders. -/
def categoryCountMap (pcm : List (String × String))
    (successOrders : List Order) : List (String × Nat) :=
  successOrders.foldl (fun m o =>
    o.items.foldl (fun m it =>
      bump m (itemCategory pcm it) 0 (fun c => c + it.quantity)) m) []

/-- The running `totalItems` accumulated in the same scan. -/
def totalItemsScan (successOrders : List Order) : Nat :=
  successOrders.foldl (fun t o =>
    o.items.foldl (fun t it => t + it.quantity) t) 0

/-- The fixed palette, with `"#8884D8"` for any unrecognized category
(`categoryColors[name] || "#8884D8"`). -/
def categoryColor (name : String) : String :=
  if name = "Basketball" then "#0088FE"
  else if name = "Running" then "#00C49F"
  else if name = "Clothing" then "#FFBB28"
  else if name = "Sneakers" then "#FF8042"
  else if name = "Other" then "#8884D8"
  else "#8884D8"

structure CategoryData where
  name : String
  value : ℤ
  color : String
deriving DecidableEq

/-- Descending-share order used by `.sort((a, b) => b.value - a.value)`. -/
def valueGe (a b : CategoryData) : Prop := b.value ≤ a.value

instance : DecidableRel valueGe := by
  unfold valueGe
  infer_instance

instance : IsTotal CategoryData valueGe :=
  ⟨fun a b => by
    unfold valueGe
    exact Int.le_total b.value a.value⟩

instance : IsTrans CategoryData valueGe :=
  ⟨fun a b c hab hbc => by
    unfold valueGe at hab hbc ⊢
    omega⟩

/-- `getCategoryDistribution`: each category's share is
`Math.round(count / totalItems * 100)` (0 when `totalItems` is 0), with its
palette color, sorted descending by share. -/
def getCategoryDistribution (products : List Product)
    (successOrders : List Order) : List CategoryData :=
  let pcm := productCategoryMap products
  let counts := categoryCountMap pcm successOrders
  let total := totalItemsScan successOrders
  (counts.map (fun e =>
    (⟨e.1, if 0 < total then jsRound ((e.2 : ℚ) / (total : ℚ) * 100) else 0,
      categoryColor e.1⟩ : CategoryData))).insertionSort valueGe

theorem categoryCountMap_eq_accFold (pcm : List (String × String))
    (successOrders : List Order) :
    categoryCountMap pcm successOrders =
      accFold (fun it => itemCategory pcm it) (fun _ => 0)
        (fun it c => c + it.quantity) (itemsOfOrders successOrders) [] := by
  rw [categoryCountMap, accFold, itemsOfOrders, List.foldl_flatten,
    List.foldl_map]

theorem foldl_add_quantity (l : List OrderItem) (a : Nat) :
    l.foldl (fun t it => t + it.quantity) a =
      a + (l.map (fun it => it.quantity)).sum := by
  induction l generalizing a with
  | nil => simp
  | cons it t ih =>
    rw [List.foldl_cons, ih]
    simp only [List.map_cons, List.sum_cons]
    omega

theorem totalItemsScan_eq (successOrders : List Order) :
    totalItemsScan successOrders =
      ((itemsOfOrders successOrders).map (fun it => it.quantity)).sum := by
  have haux : ∀ (L : List (List OrderItem)) (a : Nat),
      L.foldl (fun t items => items.foldl (fun t it => t + it.quantity) t) a =
        a + (L.map (fun items =>
          (items.map (fun it => it.quantity)).sum)).sum := by
    intro L
    induction L with
    | nil => simp
    | cons items t ih =>
      intro a
      rw [List.foldl_cons, ih, foldl_add_quantity]
      simp only [List.map_cons, List.sum_cons]
      omega
  have key := haux (successOrders.map (fun o => o.items)) 0
  rw [List.foldl_map] at key
  rw [totalItemsScan, key, itemsOfOrders]
  simp only [List.map_flatten, List.sum_flatten, List.map_map, Nat.zero_add]
  rfl

/-- The per-category counts add up to `totalItems`. -/
theorem sum_categoryCountMap (pcm : List (String × String))
    (successOrders : List Order) :
    ((categoryCountMap pcm successOrders).map (fun e => e.2)).sum =
      totalItemsScan successOrders := by
  rw [categoryCountMap_eq_accFold, totalItemsScan_eq]
  have h := sum_accFold (M := ℕ) (fun c => c) (fun it => itemCategory pcm it)
    (fun _ => 0) (fun it c => c + it.quantity) (fun it => it.quantity)
    (fun x v => rfl) (fun x => rfl) (itemsOfOrders successOrders) []
  simpa using h

/-- Summing independently rounded values drifts from the true sum by at most
half a unit per element. -/
theorem abs_sum_jsRound_sub (l : List ℚ) :
    |(l.map (fun x => (jsRound x : ℚ))).sum - l.sum| ≤ (l.length : ℚ) / 2 := by
  induction l with
  | nil => simp
  | cons x t ih =>
    simp only [List.map_cons, List.sum_cons, List.length_cons]
    have h1 := abs_jsRound_sub_le x
    have h2 : |(jsRound x : ℚ) + (t.map (fun x => (jsRound x : ℚ))).sum -
        (x + t.sum)| ≤ |(jsRound x : ℚ) - x| +
          |(t.map (fun x => (jsRound x : ℚ))).sum - t.sum| := by
      have := abs_add ((jsRound x : ℚ) - x)
        ((t.map (fun x => (jsRound x : ℚ))).sum - t.sum)
      calc |(jsRound x : ℚ) + (t.map (fun x => (jsRound x : ℚ))).sum - (x + t.sum)|
          = |((jsRound x : ℚ) - x) +
              ((t.map (fun x => (jsRound x : ℚ))).sum - t.sum)| := by ring_nf
        _ ≤ _ := this
    have h3 : ((t.length : ℚ) + 1) / 2 = 1/2 + (t.length : ℚ)/2 := by ring
    calc |(jsRound x : ℚ) + (t.map (fun x => (jsRound x : ℚ))).sum - (x + t.sum)|
        ≤ |(jsRound x : ℚ) - x| +
          |(t.map (fun x => (jsRound x : ℚ))).sum - t.sum| := h2
      _ ≤ 1/2 + (t.length : ℚ)/2 := add_le_add h1 ih
      _ = ((t.length : ℚ) + 1) / 2 := by ring
      _ = (((t.length : ℕ) + 1 : ℕ) : ℚ) / 2 := by push_cast; ring

theorem sum_map_share (l : List (String × Nat)) (T : ℚ) :
    (l.map (fun e => (e.2 : ℚ) / T * 100)).sum =
      ((l.map (fun e => (e.2 : ℚ))).sum) / T * 100 := by
  induction l with
  | nil => simp
  | cons e t ih =>
    simp only [List.map_cons, List.sum_cons, ih]
    ring

theorem intCast_map_sum {α : Type} (f : α → ℤ) (l : List α) :
    (((l.map f).sum : ℤ) : ℚ) = (l.map (fun a => ((f a : ℤ) : ℚ))).sum := by
  induction l with
  | nil => simp
  | cons x t _ =>
    simp only [List.map_cons, List.sum_cons]
    push_cast
    rw [List.map_map]
    rfl

theorem natCast_map_sum {α : Type} (f : α → ℕ) (l : List α) :
    ((((l.map f).sum : ℕ)) : ℚ) = (l.map (fun a => ((f a : ℕ) : ℚ))).sum := by
  induction l with
  | nil => simp
  | cons x t _ =>
    simp only [List.map_cons, List.sum_cons]
    push_cast
    rw [List.map_map]
    rfl

/-- Shared facts about `getCategoryDistribution` over an arbitrary list of
(query-filtered) successful orders. -/
theorem categoryDistribution_spec (products : List Product)
    (sOrders : List Order) :
    (0 < totalItemsScan sOrders →
      |((getCategoryDistribution products sOrders).map
          (fun e => e.value)).sum - 100| ≤
        ((getCategoryDistribution products sOrders).length : ℤ)) ∧
    (totalItemsScan sOrders = 0 →
      ∀ e ∈ getCategoryDistribution products sOrders, e.value = 0) ∧
    (itemsOfOrders sOrders = [] →
      getCategoryDistribution products sOrders = []) := by
  have hperm : (getCategoryDistribution products sOrders).Perm
      ((categoryCountMap (productCategoryMap products) sOrders).map
        (fun e => (⟨e.1, if 0 < totalItemsScan sOrders then
          jsRound ((e.2 : ℚ) / (totalItemsScan sOrders : ℚ) * 100) else 0,
          categoryColor e.1⟩ : CategoryData))) := by
    simp only [getCategoryDistribution]
    exact List.perm_insertionSort valueGe _
  refine ⟨?_, ?_, ?_⟩
  · intro hT
    set cm := categoryCountMap (productCategoryMap products) sOrders with hcm
    set T := totalItemsScan sOrders with hTd
    have hvals : ((getCategoryDistribution products sOrders).map
        (fun e => e.value)).sum =
        (cm.map (fun e => jsRound ((e.2 : ℚ) / (T : ℚ) * 100))).sum := by
      rw [(hperm.map (fun e => e.value)).sum_eq, List.map_map]
      simp only [hT, if_true, Function.comp]
      try rfl
    have hlen : (getCategoryDistribution products sOrders).length = cm.length := by
      rw [hperm.length_eq, List.length_map]
    have hcnt : ((cm.map (fun e => ((e.2 : ℕ) : ℚ))).sum) = (T : ℚ) := by
      rw [← natCast_map_sum (fun e => e.2) cm, sum_categoryCountMap]
    have hTne : ((T : ℕ) : ℚ) ≠ 0 := by
      have : (0 : ℚ) < ((T : ℕ) : ℚ) := by exact_mod_cast hT
      linarith
    have hshare : (cm.map (fun e => (e.2 : ℚ) / (T : ℚ) * 100)).sum = 100 := by
      rw [sum_map_share, hcnt]
      field_simp
    have hb := abs_sum_jsRound_sub
      (cm.map (fun e => (e.2 : ℚ) / (T : ℚ) * 100))
    rw [List.map_map, hshare, List.length_map] at hb
    have hS : ((cm.map (fun e => jsRound ((e.2 : ℚ) / (T : ℚ) * 100))).sum : ℚ)
        = (cm.map (fun e => (jsRound ((e.2 : ℚ) / (T : ℚ) * 100) : ℚ))).sum :=
      intCast_map_sum _ cm
    have hq : |((cm.map (fun e => jsRound ((e.2 : ℚ) / (T : ℚ) * 100))).sum : ℚ)
        - 100| ≤ (cm.length : ℚ) / 2 := by
      rw [hS]
      simpa [Function.comp] using hb
    have hhalf : ((cm.length : ℕ) : ℚ) / 2 ≤ ((cm.length : ℕ) : ℚ) := by
      have : (0 : ℚ) ≤ ((cm.length : ℕ) : ℚ) := by positivity
      linarith
    have hq2 := hq.trans hhalf
    rw [hvals, hlen]
    have hcast : ((|(cm.map (fun e => jsRound ((e.2 : ℚ) / (T : ℚ) * 100))).sum
        - 100| : ℤ) : ℚ) =
        |((cm.map (fun e => jsRound ((e.2 : ℚ) / (T : ℚ) * 100))).sum : ℚ) - 100| := by
      push_cast
      rfl
    exact_mod_cast hcast ▸ hq2
  · intro hT0 e he
    obtain ⟨c, hc, heq⟩ := List.mem_map.mp (hperm.subset he)
    rw [← heq]
    simp [hT0]
  · intro hitems
    simp only [getCategoryDistribution]
    rw [categoryCountMap_eq_accFold, hitems]
    rfl

/-- **C6 (amended)** — when total units over successful orders are
positive, the category shares (each independently
`round(count/total × 100)`) sum to 100 within ± the number of listed
categories; when total units are 0, no division is attempted and every
listed share is 0 — but the list is empty only when the successful orders
contain no line items at all (a line item with quantity 0 yields a
zero-percent entry, not an empty list). -/
theorem getCategoryDistribution_correct (products : List Product)
    (orders : List Order) :
    (0 < totalItemsScan (orders.filter (fun o => isSuccess o)) →
      |((getCategoryDistribution products
          (orders.filter (fun o => isSuccess o))).map
            (fun e => e.value)).sum - 100| ≤
        ((getCategoryDistribution products
          (orders.filter (fun o => isSuccess o))).length : ℤ)) ∧
    (totalItemsScan (orders.filter (fun o => isSuccess o)) = 0 →
      ∀ e ∈ getCategoryDistribution products
          (orders.filter (fun o => isSuccess o)), e.value = 0) ∧
    (itemsOfOrders (orders.filter (fun o => isSuccess o)) = [] →
      getCategoryDistribution products
        (orders.filter (fun o => isSuccess o)) = []) :=
  categoryDistribution_spec products (orders.filter (fun o => isSuccess o))

/-- A successful order containing one line item with quantity 0: the scan
records the item's category but accumulates no units. -/
def zeroQtyOrder : Order :=
  { id := "z", paymentStatus := "success", totalAmount := some 0,
    createdAt := 0, items := [⟨"p", "Widget", "M", 0, 5⟩] }

/-- **C6 counterexample** — with one successful order whose only line item
has quantity 0, the total item quantity is 0 yet `getCategoryDistribution`
returns a one-entry list (`Other` at 0 %), not the empty list the claim
promises. -/
theorem categoryDistribution_counterexample :
    totalItemsScan ([zeroQtyOrder].filter (fun o => isSuccess o)) = 0 ∧
    getCategoryDistribution [] ([zeroQtyOrder].filter (fun o => isSuccess o)) =
      [⟨"Other", 0, "#8884D8"⟩] := by
  decide

/-- A successful order with one two-unit line item, for exercising the
positive-total branch of C6. -/
def catWitnessOrder : Order :=
  { id := "c", paymentStatus := "success", totalAmount := some 10,
    createdAt := 0, items := [⟨"p", "Widget", "M", 2, 5⟩] }

theorem getCategoryDistribution_correct_witness :
    0 < totalItemsScan ([catWitnessOrder].filter (fun o => isSuccess o)) ∧
    |((getCategoryDistribution [] ([catWitnessOrder].filter
        (fun o => isSuccess o))).map (fun e => e.value)).sum - 100| ≤
      ((getCategoryDistribution [] ([catWitnessOrder].filter
        (fun o => isSuccess o))).length : ℤ) ∧
    totalItemsScan ([zeroQtyOrder].filter (fun o => isSuccess o)) = 0 ∧
    (⟨"Other", 0, "#8884D8"⟩ : CategoryData).value = 0 ∧
    itemsOfOrders (([] : List Order).filter (fun o => isSuccess o)) = [] ∧
    getCategoryDistribution [] (([] : List Order).filter
      (fun o => isSuccess o)) = [] := by
  have h1 : 0 < totalItemsScan ([catWitnessOrder].filter
      (fun o => isSuccess o)) := by decide
  have h0 : totalItemsScan ([zeroQtyOrder].filter
      (fun o => isSuccess o)) = 0 := by decide
  have hmem : (⟨"Other", 0, "#8884D8"⟩ : CategoryData) ∈
      getCategoryDistribution [] ([zeroQtyOrder].filter
        (fun o => isSuccess o)) := by decide
  have hitems : itemsOfOrders (([] : List Order).filter
      (fun o => isSuccess o)) = [] := rfl
  exact ⟨h1, (getCategoryDistribution_correct [] [catWitnessOrder]).1 h1, h0,
    (getCategoryDistribution_correct [] [zeroQtyOrder]).2.1 h0 _ hmem,
    hitems, (getCategoryDistribution_correct [] []).2.2 hitems⟩

/-! ## Effect model: auth gate, collection reads and error translation

Each service method is an async pipeline: wait for the auth gate, issue
collection/query reads, reduce, and translate errors in a final catch.  The
environment below records what the identity provider and the document store
would answer; a `…Run` function returns the method's result together with
the list of collection reads it performed, in order.  Everything thrown by
the embedded code or the Firestore SDK is an `Error` object, modelled by
its `message` string. -/

structure Err where
  message : String
deriving DecidableEq

/-- The rejection of the auth gate's 4000 ms timer. -/
def authTimeoutErr : Err := ⟨"Authentication timeout – user not resolved in time"⟩

/-- The substring the catch blocks test with `error.message.includes(...)`. -/
def permsPat : String := "Missing or insufficient permissions"

def errHasPermsPat (e : Err) : Bool := jsIncludes e.message permsPat

/-- The remediation error `getDashboardStats` substitutes for a
permission-denied read. -/
def statsPermErr : Err :=
  ⟨"Firestore permissions denied. Please update your Firebase security rules to allow admin access to users and orders collections."⟩

/-- The remediation error the other aggregations substitute. -/
def ordersPermErr : Err :=
  ⟨"Firestore permissions denied. Please update your Firebase security rules to allow admin access to orders collection."⟩

/-- The catch block of `getDashboardStats`. -/
def translateStatsErr (e : Err) : Err :=
  if errHasPermsPat e then statsPermErr else e

/-- The catch block of the other four aggregations. -/
def translateOrdersErr (e : Err) : Err :=
  if errHasPermsPat e then ordersPermErr else e

structure User where
  uid : String
deriving DecidableEq

/-- What the identity provider will do: the synchronously available
`auth.currentUser`, and — if a subscription is installed — the time (ms
after subscribing) at which the first non-null principal is delivered,
if ever. -/
structure AuthEnv where
  currentUser : Option User
  arrival : Option (Nat × User)
deriving DecidableEq

/-- `requireUser`: the fast path returns `auth.currentUser` without
subscribing; otherwise exactly one subscription is installed (the second
component counts them) and the promise resolves with the first principal

delivered strictly before the `timeoutMs` timer fires, else rejects with
the Authentication-Timeout error. -/
def requireUser (env : AuthEnv) (timeoutMs : Nat) : Except Err User × Nat :=
  match env.currentUser with
  | some u => (Except.ok u, 0)
  | none =>
    match env.arrival with
    | some (t, u) =>
      if t < timeoutMs then (Except.ok u, 1)
      else (Except.error authTimeoutErr, 1)
    | none => (Except.error authTimeoutErr, 1)

/-- The store's answers for the reads/queries the aggregation layer issues,
plus the wall-clock-derived month boundaries and the local clock offset. -/
structure Env where
  auth : AuthEnv
  ordersRead : Except Err (List Order)
  recentRead : Except Err (List Order)
  successRead : Except Err (List Order)
  productsRead : Except Err (List Product)
  usersRead : Except Err (List User)
  bounds : MonthBounds
  tzOffsetMs : ℤ

/-- `getDashboardStats`: auth gate, then full reads of `orders`,
`products`, `users`, with the catch translating permission errors. -/
def getDashboardStatsRun (env : Env) : Except Err AdminStats × List String :=
  match (requireUser env.auth 4000).1 with
  | Except.error e => (Except.error (translateStatsErr e), [])
  | Except.ok _ =>
    match env.ordersRead with
    | Except.error e => (Except.error (translateStatsErr e), ["orders"])
    | Except.ok orders =>
      match env.productsRead with
      | Except.error e => (Except.error (translateStatsErr e), ["orders", "products"])
      | Except.ok products =>
        match env.usersRead with
        | Except.error e =>
          (Except.error (translateStatsErr e), ["orders", "products", "users"])
        | Except.ok users =>
          (Except.ok (getDashboardStatsCore env.bounds orders
              products.length users.length),
            ["orders", "products", "users"])

/-- `getRecentOrders`: auth gate, then the
`orderBy("createdAt", "desc"), limit(n)` query (ordering and limiting are
applied by the store). -/
def getRecentOrdersRun (env : Env) : Except Err (List Order) × List String :=
  match (requireUser env.auth 4000).1 with
  | Except.error e => (Except.error (translateOrdersErr e), [])
  | Except.ok _ =>
    match env.recentRead with
    | Except.error e => (Except.error (translateOrdersErr e), ["orders"])
    | Except.ok orders => (Except.ok orders, ["orders"])

/-- `getTopProducts`: the auth-gate rejection is caught and only logged
(`.catch(() => console.warn(...))`), so the
`where("paymentStatus", "==", "success")` query runs regardless; its
failures are translated like the others. -/
def getTopProductsRun (env : Env) (limitCount : Nat) :
    Except Err (List TopProduct) × List String :=
  match env.successRead with
  | Except.error e => (Except.error (translateOrdersErr e), ["orders"])
  | Except.ok successOrders =>
    (Except.ok (getTopProducts limitCount successOrders), ["orders"])

/-- `getChartData`: auth gate, then the full `orders` read. -/
def getChartDataRun (env : Env) (period : ChartPeriod) :
    Except Err (List ChartDataPoint) × List String :=
  match (requireUser env.auth 4000).1 with
  | Except.error e => (Except.error (translateOrdersErr e), [])
  | Except.ok _ =>
    match env.ordersRead with
    | Except.error e => (Except.error (translateOrdersErr e), ["orders"])
    | Except.ok orders =>
      (Except.ok (getChartData period env.tzOffsetMs orders), ["orders"])

/-- `getCategoryDistribution`: auth gate, the success-filtered orders
query, then the full `products` read. -/
def getCategoryDistributionRun (env : Env) :
    Except Err (List CategoryData) × List String :=
  match (requireUser env.auth 4000).1 with
  | Except.error e => (Except.error (translateOrdersErr e), [])
  | Except.ok _ =>
    match env.successRead with
    | Except.error e => (Except.error (translateOrdersErr e), ["orders"])
    | Except.ok sOrders =>
      match env.productsRead with
      | Except.error e => (Except.error (translateOrdersErr e), ["orders", "products"])
      | Except.ok products =>
        (Except.ok (getCategoryDistribution products sOrders),
          ["orders", "products"])

theorem translateStats_authTimeout :
    translateStatsErr authTimeoutErr = authTimeoutErr := by decide

theorem translateOrders_authTimeout :
    translateOrdersErr authTimeoutErr = authTimeoutErr := by decide

/-- The environment of the C4 counterexample: no principal ever resolves,
every read succeeds with an empty snapshot. -/
def noAuthEnv : Env :=
  { auth := ⟨none, none⟩
    ordersRead := Except.ok []
    recentRead := Except.ok []
    successRead := Except.ok []
    productsRead := Except.ok []
    usersRead := Except.ok []
    bounds := juneBounds
    tzOffsetMs := 0 }

/-- **C4 counterexample** — with no authenticated principal and none ever
arriving, `getTopProducts` does not reject with the Authentication-Timeout
error: it swallows the auth failure, performs the `orders` query and
resolves successfully.  The claim's "every aggregation operation" is false
for `getTopProducts`. -/
theorem topProducts_auth_counterexample :
    noAuthEnv.auth.currentUser = none ∧
    noAuthEnv.auth.arrival = none ∧
    getTopProductsRun noAuthEnv 5 = (Except.ok [], ["orders"]) :=
  ⟨rfl, rfl, rfl⟩

/-- **C4 (amended)** — when no principal is present and none arrives before
the 4000 ms timer, `getDashboardStats`, `getRecentOrders`, `getChartData`
and `getCategoryDistribution` reject with the Authentication-Timeout error
and perform no data-store read; `getTopProducts` alone catches the auth
failure and proceeds to its query.  When a principal is already resolved,
the auth wait returns it immediately without subscribing. -/
theorem auth_gate_amended :
    (∀ env : Env, env.auth.currentUser = none →
      (∀ t u, env.auth.arrival = some (t, u) → 4000 ≤ t) →
      getDashboardStatsRun env = (Except.error authTimeoutErr, []) ∧
      getRecentOrdersRun env = (Except.error authTimeoutErr, []) ∧
      (∀ p, getChartDataRun env p = (Except.error authTimeoutErr, [])) ∧
      getCategoryDistributionRun env = (Except.error authTimeoutErr, [])) ∧
    (∀ (a : AuthEnv) (u : User), a.currentUser = some u →
      requireUser a 4000 = (Except.ok u, 0)) := by
  constructor
  · intro env h1 h2
    have hru : (requireUser env.auth 4000).1 = Except.error authTimeoutErr := by
      unfold requireUser
      rw [h1]
      cases ha : env.auth.arrival with
      | none => rfl
      | some tu =>
        obtain ⟨t, u⟩ := tu
        have ht := h2 t u ha
        have : ¬t < 4000 := by omega
        simp [this]
    refine ⟨?_, ?_, fun p => ?_, ?_⟩
    · rw [getDashboardStatsRun, hru]
      simp [translateStats_authTimeout]
    · rw [getRecentOrdersRun, hru]
      simp [translateOrders_authTimeout]
    · rw [getChartDataRun, hru]
      simp [translateOrders_authTimeout]
    · rw [getCategoryDistributionRun, hru]
      simp [translateOrders_authTimeout]
  · intro a u hu
    unfold requireUser
    rw [hu]

def someUser : User := ⟨"u1"⟩

theorem auth_gate_amended_witness :
    getDashboardStatsRun noAuthEnv = (Except.error authTimeoutErr, []) ∧
    getRecentOrdersRun noAuthEnv = (Except.error authTimeoutErr, []) ∧
    requireUser ⟨some someUser, none⟩ 4000 = (Except.ok someUser, 0) := by
  have h := auth_gate_amended.1 noAuthEnv rfl (by intro t u h; simp [noAuthEnv] at h)
  exact ⟨h.1, h.2.1, auth_gate_amended.2 ⟨some someUser, none⟩ someUser rfl⟩

/-- **C9** — a read failure whose message contains
"Missing or insufficient permissions" is replaced by the descriptive
"Firestore permissions denied…" error naming the security-rule change;
any other read error is re-thrown unchanged; in both cases every operation
rejects (no partial or fabricated data is substituted). -/
theorem permission_error_translation :
    (∀ e : Err, errHasPermsPat e = true →
      translateStatsErr e = statsPermErr ∧ translateOrdersErr e = ordersPermErr) ∧
    (∀ e : Err, errHasPermsPat e = false →
      translateStatsErr e = e ∧ translateOrdersErr e = e) ∧
    (∀ (env : Env) (u : User), env.auth.currentUser = some u →
      ∀ e : Err, env.ordersRead = Except.error e →
        env.recentRead = Except.error e → env.successRead = Except.error e →
        (getDashboardStatsRun env).1 = Except.error (translateStatsErr e) ∧
        (getRecentOrdersRun env).1 = Except.error (translateOrdersErr e) ∧
        (getTopProductsRun env 5).1 = Except.error (translateOrdersErr e) ∧
        (∀ p, (getChartDataRun env p).1 = Except.error (translateOrdersErr e)) ∧
        (getCategoryDistributionRun env).1 = Except.error (translateOrdersErr e)) ∧
    jsIncludes statsPermErr.message "Firestore permissions denied" = true ∧
    jsIncludes ordersPermErr.message "Firestore permissions denied" = true := by
  refine ⟨?_, ?_, ?_, by decide, by decide⟩
  · intro e he
    unfold translateStatsErr translateOrdersErr
    rw [he]
    exact ⟨rfl, rfl⟩
  · intro e he
    unfold translateStatsErr translateOrdersErr
    rw [he]
    exact ⟨rfl, rfl⟩
  · intro env u hu e h1 h2 h3
    have hru : (requireUser env.auth 4000).1 = Except.ok u := by
      unfold requireUser
      rw [hu]
    refine ⟨?_, ?_, ?_, fun p => ?_, ?_⟩
    · rw [getDashboardStatsRun, hru, h1]
    · rw [getRecentOrdersRun, hru, h2]
    · rw [getTopProductsRun, h3]
    · rw [getChartDataRun, hru, h1]
    · rw [getCategoryDistributionRun, hru, h3]

/-- A Firestore permission rejection as the SDK produces it. -/
def permDeniedErr : Err :=
  ⟨"FirebaseError: Missing or insufficient permissions."⟩

/-- A generic connectivity failure. -/
def networkErr : Err := ⟨"network down"⟩

/-- The environment of the C9 witness: authenticated, but every order read
is rejected with the permission error. -/
def permErrEnv : Env :=
  { auth := ⟨some someUser, none⟩
    ordersRead := Except.error permDeniedErr
    recentRead := Except.error permDeniedErr
    successRead := Except.error permDeniedErr
    productsRead := Except.ok []
    usersRead := Except.ok []
    bounds := juneBounds
    tzOffsetMs := 0 }

theorem permission_error_translation_witness :
    errHasPermsPat permDeniedErr = true ∧
    translateStatsErr permDeniedErr = statsPermErr ∧
    errHasPermsPat networkErr = false ∧
    translateOrdersErr networkErr = networkErr ∧
    (getDashboardStatsRun permErrEnv).1 = Except.error (translateStatsErr permDeniedErr) ∧
    (getRecentOrdersRun permErrEnv).1 = Except.error (translateOrdersErr permDeniedErr) := by
  have hpat : errHasPermsPat permDeniedErr = true := by decide
  have hnet : errHasPermsPat networkErr = false := by decide
  have h := permission_error_translation.2.2.1 permErrEnv someUser rfl
    permDeniedErr rfl rfl rfl
  exact ⟨hpat, (permission_error_translation.1 permDeniedErr hpat).1, hnet,
    (permission_error_translation.2.1 networkErr hnet).2, h.1, h.2.1⟩

end EmpireSports
